import Mathlib

/-!
Verification of the customer-support ticket routing agent
(`agent.py`, `config.py`, `main.py`).

The development embeds the program shallowly:

* a JSON value model with a printer mirroring CPython `json.dumps`
  (both the `indent=2` form used by `_safe_json` and the compact default
  form used for the unknown-tool payload) and a fuel-indexed parser
  mirroring CPython `json.loads`;
* the agent loop `process_ticket`, the four remote-backed stub
  operations and the `_llm` helper, with the remote completion endpoint
  modelled as an oracle (`Env`) supplying the scripted responses, and
  Python exceptions modelled as `Except` errors.

Model notes (deliberate, documented deviations forced by the host
language, none of which changes the truth value of the properties
proved below):

* JSON numbers are modelled as integers; floating-point literals are
  outside the model (the parser rejects them, `json.loads` would
  produce a `float`).
* CPython `json.loads` accepts lone UTF-16 surrogate escapes and
  produces lone-surrogate strings; Lean strings hold only Unicode
  scalar values, so the model parser rejects lone surrogates.
* The parser keeps object members as a list in parse order; CPython
  builds a `dict` (duplicate keys collapse, last value wins).  The
  collapse is applied where the program consumes an object — at
  keyword application (`fn(**args)`) — via `pyDictOf`, matching the
  `dict` semantics at the point of use.
-/

namespace AgentSpec

/-! ### JSON data model -/

mutual

inductive JValue where
  | null : JValue
  | bool : Bool → JValue
  | num : Int → JValue
  | str : String → JValue
  | arr : JArr → JValue
  | obj : JObj → JValue

inductive JArr where
  | nil : JArr
  | cons : JValue → JArr → JArr

inductive JObj where
  | nil : JObj
  | cons : String → JValue → JObj → JObj

end

/-- Left brace character (written by code point to keep literals plain). -/
def lbrace : Char := Char.ofNat 123

/-- Right brace character. -/
def rbrace : Char := Char.ofNat 125

/-! ### Decimal digits (model of CPython `repr` for `int`) -/

def isDig (c : Char) : Bool := 48 ≤ c.toNat && c.toNat ≤ 57

def digChar (n : Nat) : Char := Char.ofNat (48 + n)

def digVal (c : Char) : Nat := c.toNat - 48

def natCharsAux : Nat → Nat → List Char
  | 0, _ => []
  | fuel + 1, n => if n = 0 then [] else natCharsAux fuel (n / 10) ++ [digChar (n % 10)]

def natToChars (n : Nat) : List Char :=
  if n = 0 then [digChar 0] else natCharsAux (n + 1) n

def intToChars (i : Int) : List Char :=
  if i < 0 then '-' :: natToChars i.natAbs else natToChars i.toNat

/-! ### Hexadecimal (for the string escape `\uXXXX`) -/

def hexChar (n : Nat) : Char :=
  if n < 10 then Char.ofNat (48 + n) else Char.ofNat (87 + n)

def hexVal? (c : Char) : Option Nat :=
  if 48 ≤ c.toNat && c.toNat ≤ 57 then some (c.toNat - 48)
  else if 97 ≤ c.toNat && c.toNat ≤ 102 then some (c.toNat - 87)
  else if 65 ≤ c.toNat && c.toNat ≤ 70 then some (c.toNat - 55)
  else none

def hex4 (n : Nat) : List Char :=
  [hexChar (n / 4096 % 16), hexChar (n / 256 % 16), hexChar (n / 16 % 16), hexChar (n % 16)]

/-! ### String escaping (model of CPython `json` ASCII string encoder) -/

def escChar (c : Char) : List Char :=
  if c = '"' then ['\\', '"']
  else if c = '\\' then ['\\', '\\']
  else if c = Char.ofNat 8 then ['\\', 'b']
  else if c = '\t' then ['\\', 't']
  else if c = '\n' then ['\\', 'n']
  else if c = Char.ofNat 12 then ['\\', 'f']
  else if c = '\r' then ['\\', 'r']
  else if c.toNat < 32 || 127 ≤ c.toNat then
    if c.toNat < 65536 then '\\' :: 'u' :: hex4 c.toNat
    else
      ('\\' :: 'u' :: hex4 (55296 + (c.toNat - 65536) / 1024)) ++
        ('\\' :: 'u' :: hex4 (56320 + (c.toNat - 65536) % 1024))
  else [c]

def escList : List Char → List Char
  | [] => []
  | c :: cs => escChar c ++ escList cs

/-- Escaped and quoted JSON rendering of a string. -/
def escStr (s : String) : List Char := '"' :: (escList s.data ++ ['"'])

/-! ### Printer, `indent=2` form (model of `json.dumps(v, indent=2)`) -/

def sp (n : Nat) : List Char := List.replicate n ' '

mutual

def printJ (ind : Nat) : JValue → List Char
  | .null => "null".data
  | .bool true => "true".data
  | .bool false => "false".data
  | .num i => intToChars i
  | .str s => escStr s
  | .arr .nil => ['[', ']']
  | .arr (.cons x xs) =>
      '[' :: '\n' :: (sp (ind + 2) ++ printJ (ind + 2) x ++ printArrTail (ind + 2) xs ++
        '\n' :: (sp ind ++ [']']))
  | .obj .nil => [lbrace, rbrace]
  | .obj (.cons k v kvs) =>
      lbrace :: '\n' :: (sp (ind + 2) ++ escStr k ++ ':' :: ' ' :: (printJ (ind + 2) v ++
        printObjTail (ind + 2) kvs ++ '\n' :: (sp ind ++ [rbrace])))

def printArrTail (ind : Nat) : JArr → List Char
  | .nil => []
  | .cons x xs => ',' :: '\n' :: (sp ind ++ printJ ind x ++ printArrTail ind xs)

def printObjTail (ind : Nat) : JObj → List Char
  | .nil => []
  | .cons k v kvs =>
      ',' :: '\n' :: (sp ind ++ escStr k ++ ':' :: ' ' :: (printJ ind v ++ printObjTail ind kvs))

end

/-! ### Printer, compact default form (model of `json.dumps(v)`) -/

mutual

def printC : JValue → List Char
  | .null => "null".data
  | .bool true => "true".data
  | .bool false => "false".data
  | .num i => intToChars i
  | .str s => escStr s
  | .arr .nil => ['[', ']']
  | .arr (.cons x xs) => '[' :: (printC x ++ printCArrTail xs ++ [']'])
  | .obj .nil => [lbrace, rbrace]
  | .obj (.cons k v kvs) =>
      lbrace :: (escStr k ++ ':' :: ' ' :: (printC v ++ printCObjTail kvs ++ [rbrace]))

def printCArrTail : JArr → List Char
  | .nil => []
  | .cons x xs => ',' :: ' ' :: (printC x ++ printCArrTail xs)

def printCObjTail : JObj → List Char
  | .nil => []
  | .cons k v kvs => ',' :: ' ' :: (escStr k ++ ':' :: ' ' :: (printC v ++ printCObjTail kvs))

end

/-! ### Structure size (fuel bounds for the parser round trip) -/

mutual

def sizeJ : JValue → Nat
  | .arr a => 1 + sizeA a
  | .obj o => 1 + sizeO o
  | _ => 1

def sizeA : JArr → Nat
  | .nil => 1
  | .cons x xs => 1 + sizeJ x + sizeA xs

def sizeO : JObj → Nat
  | .nil => 1
  | .cons _ v kvs => 1 + sizeJ v + sizeO kvs

end

/-! ### Parser (model of CPython `json.loads`) -/

def jsonWs (c : Char) : Bool := c = ' ' || c = '\t' || c = '\n' || c = '\r'

def skipWs (cs : List Char) : List Char := cs.dropWhile jsonWs

/-- Simple one-character string escapes accepted by the scanner. -/
def escCharOf (e : Char) : Option Char :=
  if e = '"' then some '"'
  else if e = '\\' then some '\\'
  else if e = '/' then some '/'
  else if e = 'b' then some (Char.ofNat 8)
  else if e = 'f' then some (Char.ofNat 12)
  else if e = 'n' then some '\n'
  else if e = 'r' then some '\r'
  else if e = 't' then some '\t'
  else none

/-- Read exactly four hexadecimal digits and return their value. -/
def readU : List Char → Option (Nat × List Char)
  | h1 :: h2 :: h3 :: h4 :: rest =>
    match hexVal? h1, hexVal? h2, hexVal? h3, hexVal? h4 with
    | some a, some b, some c1, some d => some (a * 4096 + b * 256 + c1 * 16 + d, rest)
    | _, _, _, _ => none
  | _ => none

/-- Decode one string escape after the backslash: the eight
one-character escapes plus `\uXXXX` with surrogate pairing.  Lone
surrogates are rejected (see the model notes). -/
def decodeEsc : List Char → Option (Char × List Char)
  | [] => none
  | e :: rest =>
    if e = 'u' then
      match readU rest with
      | none => none
      | some (n, rest2) =>
        if 55296 ≤ n ∧ n < 56320 then
          match rest2 with
          | b1 :: b2 :: rest3 =>
            if b1 = '\\' ∧ b2 = 'u' then
              match readU rest3 with
              | some (m, rest4) =>
                if 56320 ≤ m ∧ m < 57344 then
                  some (Char.ofNat (65536 + (n - 55296) * 1024 + (m - 56320)), rest4)
                else none
              | none => none
            else none
          | _ => none
        else if 56320 ≤ n ∧ n < 57344 then none
        else some (Char.ofNat n, rest2)
    else
      match escCharOf e with
      | some ec => some (ec, rest)
      | none => none

/-- Parse the body of a JSON string after the opening quote; returns
the decoded characters and the input after the closing quote.  Mirrors
the strict CPython scanner: raw control characters are rejected.  The
fuel only bounds the recursion; every step consumes at least one input
character, so fuel `length + 1` always suffices. -/
def parseStrBody : Nat → List Char → Option (List Char × List Char)
  | 0, _ => none
  | fuel + 1, cs =>
    match cs with
    | [] => none
    | c :: rest =>
      if c = '"' then some ([], rest)
      else if c = '\\' then
        match decodeEsc rest with
        | some p => (parseStrBody fuel p.2).map (fun q => (p.1 :: q.1, q.2))
        | none => none
      else if c.toNat < 32 then none
      else (parseStrBody fuel rest).map (fun q => (c :: q.1, q.2))

/-- Longest prefix of decimal digits. -/
def takeDigits : List Char → List Char × List Char
  | [] => ([], [])
  | c :: rest =>
    if isDig c then
      let p := takeDigits rest
      (c :: p.1, p.2)
    else ([], c :: rest)

def digitsVal (ds : List Char) : Nat := ds.foldl (fun a c => a * 10 + digVal c) 0

/-- Integer part of the JSON number grammar: `0` stops immediately, a
nonzero leading digit takes the maximal digit run (mirrors the CPython
`NUMBER_RE` integer group). -/
def parseNatTok : List Char → Option (Nat × List Char)
  | [] => none
  | c :: rest =>
    if c = digChar 0 then some (0, rest)
    else if isDig c then
      let p := takeDigits rest
      some (digitsVal (c :: p.1), p.2)
    else none

def parseIntTok : List Char → Option (Int × List Char)
  | [] => none
  | c :: rest =>
    if c = '-' then (parseNatTok rest).map (fun p => (-(p.1 : Int), p.2))
    else (parseNatTok (c :: rest)).map (fun p => ((p.1 : Int), p.2))

/-- Whether the characters after the integer part would extend the match
to a float (fraction or exponent group of `NUMBER_RE`). -/
def floatFollows : List Char → Bool
  | c :: d :: _ =>
    if c = '.' then isDig d
    else if c = 'e' || c = 'E' then isDig d || ((d = '+' || d = '-') && true)
    else false
  | _ => false

/-- Number parse with the float guard: a match that CPython would read
as a float is outside the model and rejected. -/
def parseNum (cs : List Char) : Option (Int × List Char) :=
  match parseIntTok cs with
  | none => none
  | some p => if floatFollows p.2 then none else some p

mutual

/-- Fuel-indexed JSON value parser; skips leading whitespace itself.
At every recursive call at least one character has been consumed, so
fuel `length + 1` suffices for any input. -/
def parseJ : Nat → List Char → Option (JValue × List Char)
  | 0, _ => none
  | fuel + 1, cs =>
    match skipWs cs with
    | [] => none
    | c :: r =>
      if c = 'n' then
        match r with
        | 'u' :: 'l' :: 'l' :: r2 => some (.null, r2)
        | _ => none
      else if c = 't' then
        match r with
        | 'r' :: 'u' :: 'e' :: r2 => some (.bool true, r2)
        | _ => none
      else if c = 'f' then
        match r with
        | 'a' :: 'l' :: 's' :: 'e' :: r2 => some (.bool false, r2)
        | _ => none
      else if c = '"' then
        (parseStrBody (r.length + 1) r).map (fun p => (.str (String.mk p.1), p.2))
      else if c = '[' then
        match skipWs r with
        | [] => none
        | c2 :: r2 =>
          if c2 = ']' then some (.arr .nil, r2)
          else
            match parseJ fuel (c2 :: r2) with
            | none => none
            | some (v, r3) =>
              match parseArrTail fuel r3 with
              | none => none
              | some (xs, r4) => some (.arr (.cons v xs), r4)
      else if c = lbrace then
        match skipWs r with
        | [] => none
        | c2 :: r2 =>
          if c2 = rbrace then some (.obj .nil, r2)
          else if c2 = '"' then
            match parseStrBody (r2.length + 1) r2 with
            | none => none
            | some (k, r3) =>
              match skipWs r3 with
              | [] => none
              | c4 :: r4 =>
                if c4 = ':' then
                  match parseJ fuel r4 with
                  | none => none
                  | some (v, r5) =>
                    match parseObjTail fuel r5 with
                    | none => none
                    | some (kvs, r6) => some (.obj (.cons (String.mk k) v kvs), r6)
                else none
          else none
      else
        (parseNum (c :: r)).map (fun p => (.num p.1, p.2))

/-- Items of an array after the first element: expects `,` or `]`. -/
def parseArrTail : Nat → List Char → Option (JArr × List Char)
  | 0, _ => none
  | fuel + 1, cs =>
    match skipWs cs with
    | [] => none
    | c :: r =>
      if c = ']' then some (.nil, r)
      else if c = ',' then
        match parseJ fuel r with
        | none => none
        | some (v, r2) =>
          match parseArrTail fuel r2 with
          | none => none
          | some (xs, r3) => some (.cons v xs, r3)
      else none

/-- Members of an object after the first pair: expects `,` or the
closing brace, then a quoted key, `:` and a value. -/
def parseObjTail : Nat → List Char → Option (JObj × List Char)
  | 0, _ => none
  | fuel + 1, cs =>
    match skipWs cs with
    | [] => none
    | c :: r =>
      if c = rbrace then some (.nil, r)
      else if c = ',' then
        match skipWs r with
        | [] => none
        | c2 :: r2 =>
          if c2 = '"' then
            match parseStrBody (r2.length + 1) r2 with
            | none => none
            | some (k, r3) =>
              match skipWs r3 with
              | [] => none
              | c4 :: r4 =>
                if c4 = ':' then
                  match parseJ fuel r4 with
                  | none => none
                  | some (v, r5) =>
                    match parseObjTail fuel r5 with
                    | none => none
                    | some (kvs, r6) => some (.cons (String.mk k) v kvs, r6)
                else none
          else none
      else none

end

/-- Model of `json.loads`: parse one value, allow surrounding
whitespace, reject trailing data. -/
def loads (t : String) : Option JValue :=
  match parseJ (t.length + 1) t.data with
  | none => none
  | some (v, rest) => if skipWs rest = [] then some v else none

/-- Model of `json.dumps(v, indent=2)`. -/
def dumps (v : JValue) : String := String.mk (printJ 0 v)

/-- Model of `json.dumps(v)` (compact default separators). -/
def dumpsCompact (v : JValue) : String := String.mk (printC v)

/-- Model of `_safe_json` from `agent.py`: pretty-print if the text
parses as JSON, otherwise return it unchanged. -/
def _safe_json (text : String) : String :=
  match loads text with
  | some v => dumps v
  | none => text

example : loads "null" = some .null := rfl

example : loads " \x7b\"a\": [1, -2], \"b\": \"x\\n\"\x7d " =
    some (.obj (.cons "a" (.arr (.cons (.num 1) (.cons (.num (-2)) .nil)))
      (.cons "b" (.str "x\n") .nil))) := rfl

example : loads "1.5" = none := rfl

example : loads "\x7b\x7d extra" = none := rfl

example : dumps (.obj (.cons "a" (.num 1) .nil)) = "\x7b\n  \"a\": 1\n\x7d" := rfl

example : dumpsCompact (.obj (.cons "error" (.str "Unknown tool: x") .nil)) =
    "\x7b\"error\": \"Unknown tool: x\"\x7d" := rfl

example : _safe_json "[1,2]" = "[\n  1,\n  2\n]" := rfl

example : _safe_json "not json" = "not json" := rfl

/-! ### Python runtime errors that `agent.py` can raise (all unhandled) -/

inductive PyError where
  | jsonDecodeError : PyError
  | typeError : PyError
  | attributeError : PyError
  | indexError : PyError
deriving DecidableEq, Repr

/-! ### Remote completion endpoint (external collaborator, modelled as an oracle)

The source fixes `model=MODEL_NAME`, `temperature` and `max_tokens` on
every request; only the message payload varies, so a request is
identified by its varying parts. -/

/-- The model identifier from `config.py`. -/
def MODEL_NAME : String := "llama-3.1-8b-instant"

/-- One request sent by `_llm`: a system prompt and a user message. -/
structure LlmRequest where
  system : String
  user : String
deriving DecidableEq, Repr

/-- One choice of a completion response to `_llm`; `content` is the
`message.content` field, absent when the service returns null. -/
structure LlmChoice where
  content : Option String
deriving DecidableEq, Repr

structure LlmResponse where
  choices : List LlmChoice
deriving DecidableEq, Repr

/-- The `function` payload of a tool invocation request:
`tool_call.function.name` and `tool_call.function.arguments`
(the latter is raw JSON-encoded text). -/
structure ToolCallFn where
  name : String
  arguments : String
deriving DecidableEq, Repr

/-- A tool invocation request emitted by the remote model. -/
structure ToolCall where
  id : String
  function : ToolCallFn
deriving DecidableEq, Repr

/-- The assistant message of a driver-level completion response. -/
structure ChatMsg where
  content : Option String
  tool_calls : List ToolCall
deriving DecidableEq, Repr

structure ChatChoice where
  message : ChatMsg
deriving DecidableEq, Repr

structure ChatResponse where
  choices : List ChatChoice
deriving DecidableEq, Repr

/-- Oracle for the remote completion endpooint: `chat r` is the
response to the driver's request in round `r` (rounds are numbered from
0), and `llm sys usr` is the response to a one-shot `_llm` request.
Quantifying over `Env` quantifies over every possible remote
behaviour. -/
structure Env where
  chat : Nat → ChatResponse
  llm : String → String → LlmResponse

/-! ### Python `str.strip()` (model over the common whitespace set) -/

/-- Characters stripped by Python `str.strip()`: ASCII whitespace,
the C0 separators 0x1c-0x1f, NEL and NBSP.  (The full Unicode
space category is not enumerated; no claim depends on it.) -/
def pySpace (c : Char) : Bool :=
  c.toNat = 32 || (9 ≤ c.toNat && c.toNat ≤ 13) || (28 ≤ c.toNat && c.toNat ≤ 31) ||
    c.toNat = 133 || c.toNat = 160

def pyStrip (s : String) : String :=
  String.mk (((s.data.dropWhile pySpace).reverse.dropWhile pySpace).reverse)

/-! ### `_llm` and the four stub operations -/

/-- Model of `_llm`: send one request, return
`resp.choices[0].message.content.strip()`.  The second component is
the list of requests sent (exactly one); `choices[0]` on an empty list
raises `IndexError`, `.strip()` on `None` raises `AttributeError`. -/
def _llm (env : Env) (system user : String) : Except PyError String × List LlmRequest :=
  (match (env.llm system user).choices with
   | [] => .error .indexError
   | ch :: _ =>
     match ch.content with
     | none => .error .attributeError
     | some s => .ok (pyStrip s),
   [⟨system, user⟩])

/-- System prompt of `analyze_ticket`. -/
def ANALYZE_SYSTEM : String :=
  "You are a support ticket analyst. Analyze the ticket and return a JSON object with:\n" ++
  "- \"intent\": what the customer wants\n" ++
  "- \"sentiment\": positive / neutral / negative / angry\n" ++
  "- \"urgency\": low / medium / high / critical\n" ++
  "- \"summary\": one-line summary\n" ++
  "Return ONLY valid JSON."

/-- System prompt of `classify_ticket`. -/
def CLASSIFY_SYSTEM : String :=
  "You are a ticket routing specialist. Based on the ticket and its analysis, return a JSON object with:\n" ++
  "- \"department\": one of [Billing, Technical Support, Sales, Account Management, Product Feedback, General Inquiry]\n" ++
  "- \"priority\": one of [P1-Critical, P2-High, P3-Medium, P4-Low]\n" ++
  "- \"reason\": brief justification\n" ++
  "Return ONLY valid JSON."

/-- System prompt of `extract_entities`. -/
def EXTRACT_SYSTEM : String :=
  "You are an entity extraction specialist. Extract key entities from the ticket and return a JSON object with:\n" ++
  "- \"customer_name\": if mentioned\n" ++
  "- \"order_id\": any order/reference numbers\n" ++
  "- \"product\": product or service mentioned\n" ++
  "- \"dates\": any dates mentioned\n" ++
  "- \"contact_info\": email/phone if present\n" ++
  "- \"issue_keywords\": list of key issue terms\n" ++
  "Use null for fields not found. Return ONLY valid JSON."

/-- System prompt of `generate_response`. -/
def GENERATE_SYSTEM : String :=
  "You are a professional customer support agent. Generate a helpful, empathetic response.\n" ++
  "If priority is P1-Critical or P2-High, include an escalation note.\n" ++
  "Return a JSON object with:\n" ++
  "- \"response\": the customer-facing reply\n" ++
  "- \"internal_note\": note for the support team\n" ++
  "- \"escalation_needed\": true/false\n" ++
  "Return ONLY valid JSON."

/-- Step 1: analyse intent, sentiment, urgency, summary. -/
def analyze_ticket (env : Env) (ticket_text : String) :
    Except PyError String × List LlmRequest :=
  _llm env ANALYZE_SYSTEM ticket_text

/-- Step 2: route to a department and assign priority. -/
def classify_ticket (env : Env) (ticket_text analysis : String) :
    Except PyError String × List LlmRequest :=
  _llm env CLASSIFY_SYSTEM ("Ticket:\n" ++ ticket_text ++ "\n\nAnalysis:\n" ++ analysis)

/-- Step 3: extract structured entities. -/
def extract_entities (env : Env) (ticket_text : String) :
    Except PyError String × List LlmRequest :=
  _llm env EXTRACT_SYSTEM ticket_text

/-- Step 4: generate the customer-facing reply. -/
def generate_response (env : Env) (ticket_text analysis classification entities : String) :
    Except PyError String × List LlmRequest :=
  _llm env GENERATE_SYSTEM
    ("Ticket:\n" ++ ticket_text ++ "\n\nAnalysis:\n" ++ analysis ++
      "\n\nClassification:\n" ++ classification ++ "\n\nEntities:\n" ++ entities)

/-! ### Tool registry and keyword application -/

/-- The parameter names of each registered tool (from `TOOLS` /
`TOOL_MAP`; all parameters are required).  `none` models
`TOOL_MAP.get(fn_name)` returning `None` for an unknown name. -/
def TOOL_MAP_params : String → Option (List String)
  | "analyze_ticket" => some ["ticket_text"]
  | "classify_ticket" => some ["ticket_text", "analysis"]
  | "extract_entities" => some ["ticket_text"]
  | "generate_response" => some ["ticket_text", "analysis", "classification", "entities"]
  | _ => none

def toolNames : List String :=
  ["analyze_ticket", "classify_ticket", "extract_entities", "generate_response"]

/-- Python `dict` insertion: overwrite in place if the key exists,
otherwise append.  Keys stay unique and keep first-insertion order. -/
def pySet {α : Type} (d : List (String × α)) (k : String) (v : α) : List (String × α) :=
  if d.any (fun p => p.1 == k) then d.map (fun p => if p.1 == k then (k, v) else p)
  else d ++ [(k, v)]

def jLookup {α : Type} (d : List (String × α)) (k : String) : Option α :=
  (d.find? (fun p => p.1 == k)).map Prod.snd

def jPairs : JObj → List (String × JValue)
  | .nil => []
  | .cons k v kvs => (k, v) :: jPairs kvs

/-- Build a Python `dict` from parsed object members (duplicate keys
collapse, last value wins), as `json.loads` does. -/
def pyDictOf (l : List (String × JValue)) : List (String × JValue) :=
  l.foldl (fun d p => pySet d p.1 p.2) []

/-- Whether `fn(**d)` binds: the supplied keyword set must equal the
parameter set exactly (all parameters of the four tools are required
and none has a default, so a missing or unexpected key raises
`TypeError`). -/
def keysMatch (d : List (String × JValue)) (params : List String) : Bool :=
  d.all (fun p => params.contains p.1) && params.all (fun q => d.any (fun p => p.1 == q))

/-- Python `str()` at the point a JSON-derived argument value is
interpolated into a prompt.  Strings pass through unchanged; container
rendering is approximated by compact JSON (Python `repr` quoting
differs; no claim depends on non-string argument values). -/
def pyStr : JValue → String
  | .str s => s
  | .null => "None"
  | .bool true => "True"
  | .bool false => "False"
  | .num i => String.mk (intToChars i)
  | .arr a => dumpsCompact (.arr a)
  | .obj o => dumpsCompact (.obj o)

def argStr (d : List (String × JValue)) (k : String) : String :=
  pyStr ((jLookup d k).getD .null)

/-- Dispatch to the Python implementation of a registered tool with a
bound keyword dictionary. -/
def callKnownTool (env : Env) (name : String) (d : List (String × JValue)) :
    Except PyError String × List LlmRequest :=
  if name = "analyze_ticket" then analyze_ticket env (argStr d "ticket_text")
  else if name = "classify_ticket" then
    classify_ticket env (argStr d "ticket_text") (argStr d "analysis")
  else if name = "extract_entities" then extract_entities env (argStr d "ticket_text")
  else if name = "generate_response" then
    generate_response env (argStr d "ticket_text") (argStr d "analysis")
      (argStr d "classification") (argStr d "entities")
  else (.error .typeError, [])

/-- Model of `fn(**args)` for a registered tool: the parsed argument
value must be a JSON object whose key set matches the tool's parameter
set, else `TypeError`.  On success returns the tool's text result and
the string arguments actually handed to the stub. -/
def kwApply (env : Env) (name : String) (params : List String) (argsVal : JValue) :
    Except PyError (String × List (String × String)) :=
  match argsVal with
  | .obj o =>
    if keysMatch (pyDictOf (jPairs o)) params then
      match (callKnownTool env name (pyDictOf (jPairs o))).1 with
      | .ok s => .ok (s, params.map (fun p => (p, argStr (pyDictOf (jPairs o)) p)))
      | .error e => .error e
    else .error .typeError
  | _ => .error .typeError

/-- The error-shaped payload substituted for an unknown tool name:
`json.dumps` of the error dictionary. -/
def unknownToolPayload (name : String) : String :=
  dumpsCompact (.obj (.cons "error" (.str ("Unknown tool: " ++ name)) .nil))

/-! ### Conversation messages and the agent loop -/

/-- One message of the conversation owned by `process_ticket`. -/
inductive Message where
  | system : String → Message
  | user : String → Message
  | assistant : ChatMsg → Message
  | tool : (tool_call_id : String) → (content : String) → Message
deriving DecidableEq, Repr

/-- Ghost observation of one executed tool invocation: the invocation
request, the result accumulator at the moment of invocation, and the
string arguments handed to the stub (`none` when no stub ran). -/
structure CallRecord where
  tc : ToolCall
  snapshot : List (String × String)
  stubArgs : Option (List (String × String))
deriving DecidableEq, Repr

/-- Execute the requested tool calls of one assistant message in order:
parse the arguments (`json.loads` — its failure aborts the ticket),
look the name up in the registry, substitute the error payload for an
unknown name, otherwise apply the tool; record the result under the
tool name and append a tool message echoing the call identifier. -/
def runCalls (env : Env) :
    List ToolCall → List (String × String) → List Message → List CallRecord →
    Except PyError (List (String × String)) × List Message × List CallRecord
  | [], res, msgs, recs => (.ok res, msgs, recs)
  | tc :: rest, res, msgs, recs =>
    match loads tc.function.arguments with
    | none => (.error .jsonDecodeError, msgs, recs)
    | some argsVal =>
      match TOOL_MAP_params tc.function.name with
      | none =>
        runCalls env rest (pySet res tc.function.name (unknownToolPayload tc.function.name))
          (msgs ++ [.tool tc.id (unknownToolPayload tc.function.name)])
          (recs ++ [⟨tc, res, none⟩])
      | some params =>
        match kwApply env tc.function.name params argsVal with
        | .error e => (.error e, msgs, recs)
        | .ok (out, sa) =>
          runCalls env rest (pySet res tc.function.name out)
            (msgs ++ [.tool tc.id out]) (recs ++ [⟨tc, res, some sa⟩])

/-- Everything observable about one `process_ticket` run: the returned
mapping (or the Python exception that aborted the run), the number of
driver requests made, and the ghost conversation / invocation traces. -/
structure RunOut where
  outcome : Except PyError (List (String × String))
  rounds : Nat
  msgs : List Message
  calls : List CallRecord

/-- Model of `msg.content.strip() if msg.content else ""`. -/
def stripContent : Option String → String
  | some s => pyStrip s
  | none => ""

/-- The driver loop of `process_ticket`: up to `fuel` rounds; a
response without tool calls records the final summary and stops;
otherwise the assistant message is appended and its calls executed. -/
def agentLoop (env : Env) :
    Nat → Nat → List (String × String) → List Message → List CallRecord → RunOut
  | 0, round, res, msgs, recs => ⟨.ok res, round, msgs, recs⟩
  | fuel + 1, round, res, msgs, recs =>
    match (env.chat round).choices with
    | [] => ⟨.error .indexError, round + 1, msgs, recs⟩
    | ch :: _ =>
      if ch.message.tool_calls.isEmpty then
        ⟨.ok (pySet res "final_summary" (stripContent ch.message.content)),
          round + 1, msgs, recs⟩
      else
        match runCalls env ch.message.tool_calls res (msgs ++ [.assistant ch.message]) recs with
        | (.error e, m2, r2) => ⟨.error e, round + 1, m2, r2⟩
        | (.ok res2, m2, r2) => agentLoop env fuel (round + 1) res2 m2 r2

/-- The agent system prompt (`AGENT_SYSTEM` in the source). -/
def AGENT_SYSTEM : String :=
  "You are a Customer Support Ticket Routing Agent.\n" ++
  "You process tickets step-by-step using these tools in order:\n\n" ++
  "1. **analyze_ticket** – understand intent, sentiment, urgency\n" ++
  "2. **classify_ticket** – assign department & priority (needs the analysis)\n" ++
  "3. **extract_entities** – pull out key entities\n" ++
  "4. **generate_response** – craft reply (needs analysis, classification, entities)\n\n" ++
  "Call ONE tool at a time. After all four tools have been called, respond with\n" ++
  "a final summary that includes the results from every step.\n"

/-- Safety cap on driver rounds (`max_iterations` in the source). -/
def max_iterations : Nat := 10

/-- Model of `process_ticket`: initialise the conversation and run the
agent loop. -/
def process_ticket (env : Env) (ticket_text : String) : RunOut :=
  agentLoop env max_iterations 0 []
    [.system AGENT_SYSTEM, .user ("Process this support ticket:\n\n" ++ ticket_text)] []

/-- Keys of a result mapping. -/
def resKeys (res : List (String × String)) : List String := res.map Prod.fst

/-! ### Character facts -/

theorem char_toNat_inj {a b : Char} (h : a.toNat = b.toNat) : a = b := by
  rw [← Char.ofNat_toNat a, h, Char.ofNat_toNat]

theorem char_lt_uni (c : Char) : c.toNat < 1114112 := by
  have := c.valid
  unfold UInt32.isValidChar Nat.isValidChar at this
  unfold Char.toNat
  rcases this with h | ⟨h1, h2⟩ <;> omega

theorem char_not_surrogate (c : Char) : ¬ (55296 ≤ c.toNat ∧ c.toNat < 57344) := by
  have := c.valid
  unfold UInt32.isValidChar Nat.isValidChar at this
  unfold Char.toNat
  rcases this with h | ⟨h1, h2⟩ <;> omega

/-! ### Whitespace lemmas -/

theorem skipWs_cons_ws {c : Char} (h : jsonWs c = true) (l : List Char) :
    skipWs (c :: l) = skipWs l := by
  simp [skipWs, List.dropWhile_cons, h]

theorem skipWs_cons_not {c : Char} (h : jsonWs c = false) (l : List Char) :
    skipWs (c :: l) = c :: l := by
  simp [skipWs, List.dropWhile_cons, h]

theorem skipWs_idem (l : List Char) : skipWs (skipWs l) = skipWs l := by
  induction l with
  | nil => rfl
  | cons c t ih =>
    by_cases h : jsonWs c = true
    · rw [skipWs_cons_ws h, ih]
    · rw [skipWs_cons_not (by simpa using h), skipWs_cons_not (by simpa using h)]

theorem skipWs_sp (n : Nat) (l : List Char) : skipWs (sp n ++ l) = skipWs l := by
  induction n with
  | zero => rfl
  | succ m ih => simpa [sp, List.replicate_succ, skipWs_cons_ws] using ih

theorem parseJ_skipWs (fuel : Nat) (cs : List Char) :
    parseJ fuel (skipWs cs) = parseJ fuel cs := by
  cases fuel with
  | zero => rfl
  | succ f => rw [parseJ, parseJ, skipWs_idem]

/-! ### Decimal digit lemmas -/

theorem isDig_digChar {d : Nat} (h : d < 10) : isDig (digChar d) = true := by
  interval_cases d <;> decide

theorem digVal_digChar {d : Nat} (h : d < 10) : digVal (digChar d) = d := by
  interval_cases d <;> decide

theorem ne_of_isDig {c x : Char} (h : isDig c = true) (hx : isDig x = false) : c ≠ x := by
  intro e
  rw [e, hx] at h
  cases h

theorem jsonWs_of_isDig {c : Char} (h : isDig c = true) : jsonWs c = false := by
  rcases hc : jsonWs c with _ | _
  · rfl
  · exfalso
    simp only [jsonWs, Bool.or_eq_true, decide_eq_true_eq] at hc
    rcases hc with (((e | e) | e) | e) <;> rw [e] at h <;> cases h

theorem takeDigits_append (ds rest : List Char) (hds : ∀ c ∈ ds, isDig c = true)
    (hr : ∀ c, rest.head? = some c → isDig c = false) :
    takeDigits (ds ++ rest) = (ds, rest) := by
  induction ds with
  | nil =>
    cases rest with
    | nil => rfl
    | cons c t => simp [takeDigits, hr c rfl]
  | cons d ds ih =>
    have hd : isDig d = true := hds d (by simp)
    have hih := ih (fun c hc => hds c (by simp [hc]))
    simp only [List.cons_append, takeDigits, hd, if_true, List.append_eq, hih]

theorem digitsVal_append_one (ds : List Char) (c : Char) :
    digitsVal (ds ++ [c]) = digitsVal ds * 10 + digVal c := by
  simp [digitsVal, List.foldl_append]

theorem natCharsAux_zero (fuel : Nat) : natCharsAux fuel 0 = [] := by
  cases fuel <;> simp [natCharsAux]

theorem natCharsAux_all_dig : ∀ fuel n c, c ∈ natCharsAux fuel n → isDig c = true := by
  intro fuel
  induction fuel with
  | zero => intro n c hc; simp [natCharsAux] at hc
  | succ f ih =>
    intro n c hc
    rw [natCharsAux] at hc
    by_cases h0 : n = 0
    · simp [h0] at hc
    · rw [if_neg h0] at hc
      rcases List.mem_append.mp hc with h | h
      · exact ih _ _ h
      · simp at h
        rw [h]
        exact isDig_digChar (Nat.mod_lt _ (by omega))

theorem natCharsAux_val : ∀ fuel n, n ≤ fuel → digitsVal (natCharsAux fuel n) = n := by
  intro fuel
  induction fuel with
  | zero => intro n h; interval_cases n; simp [natCharsAux, digitsVal]
  | succ f ih =>
    intro n h
    rw [natCharsAux]
    by_cases h0 : n = 0
    · simp [h0, digitsVal]
    · rw [if_neg h0, digitsVal_append_one, ih (n / 10) (by omega),
        digVal_digChar (Nat.mod_lt _ (by omega))]
      omega

theorem natCharsAux_lead : ∀ fuel n, 0 < n → n ≤ fuel →
    ∃ d tl, natCharsAux fuel n = d :: tl ∧ isDig d = true ∧ digVal d ≠ 0 := by
  intro fuel
  induction fuel with
  | zero => intro n h1 h2; omega
  | succ f ih =>
    intro n h1 h2
    rw [natCharsAux, if_neg (by omega)]
    by_cases h10 : n < 10
    · refine ⟨digChar (n % 10), [], ?_, isDig_digChar (Nat.mod_lt _ (by omega)), ?_⟩
      · rw [Nat.div_eq_of_lt h10, natCharsAux_zero, List.nil_append]
      · rw [digVal_digChar (Nat.mod_lt _ (by omega))]
        omega
    · have hp10 : 0 < n / 10 := by omega
      have hle10 : n / 10 ≤ f := by omega
      obtain ⟨d, tl, he, hd, hv⟩ := ih (n / 10) hp10 hle10
      exact ⟨d, tl ++ [digChar (n % 10)], by rw [he]; rfl, hd, hv⟩

theorem natToChars_head (n : Nat) :
    ∃ d tl, natToChars n = d :: tl ∧ isDig d = true := by
  by_cases h0 : n = 0
  · exact ⟨digChar 0, [], by simp [natToChars, h0], by decide⟩
  · obtain ⟨d, tl, he, hd, _⟩ := natCharsAux_lead (n + 1) n (by omega) (by omega)
    exact ⟨d, tl, by rw [natToChars, if_neg h0, he], hd⟩

theorem parseNatTok_natToChars (n : Nat) (rest : List Char)
    (hr : ∀ c, rest.head? = some c → isDig c = false) :
    parseNatTok (natToChars n ++ rest) = some (n, rest) := by
  by_cases h0 : n = 0
  · subst h0
    simp [natToChars, parseNatTok]
  · obtain ⟨d, tl, he, hd, hv⟩ := natCharsAux_lead (n + 1) n (by omega) (by omega)
    have hnc : natToChars n = d :: tl := by rw [natToChars, if_neg h0, he]
    have hne : ¬ d = digChar 0 := by
      intro e
      rw [e] at hv
      exact hv (by decide)
    have htl : ∀ c ∈ tl, isDig c = true := by
      intro c hc
      exact natCharsAux_all_dig (n + 1) n c (by rw [he]; simp [hc])
    have hval : digitsVal (d :: tl) = n := by
      rw [← he]
      exact natCharsAux_val (n + 1) n (by omega)
    rw [hnc, List.cons_append]
    simp only [parseNatTok, if_neg hne, if_pos hd, takeDigits_append tl rest htl hr, hval]

theorem parseIntTok_intToChars (i : Int) (rest : List Char)
    (hr : ∀ c, rest.head? = some c → isDig c = false) :
    parseIntTok (intToChars i ++ rest) = some (i, rest) := by
  by_cases hneg : i < 0
  · rw [intToChars, if_pos hneg, List.cons_append]
    simp only [parseIntTok, parseNatTok_natToChars _ _ hr, Option.map, if_true,
      eq_self_iff_true, Option.some.injEq, Prod.mk.injEq, and_true, true_and]
    omega
  · rw [intToChars, if_neg hneg]
    obtain ⟨d, tl, he, hd⟩ := natToChars_head i.toNat
    rw [he, List.cons_append]
    simp only [parseIntTok, if_neg (ne_of_isDig hd (show isDig '-' = false by decide))]
    rw [← List.cons_append, ← he, parseNatTok_natToChars _ _ hr]
    simp only [Option.map, Option.some.injEq, Prod.mk.injEq, and_true, true_and]
    omega

/-- The continuations a printed value is followed by inside printed
JSON output (or the empty top level). -/
def restDelim (rest : List Char) : Bool :=
  match rest with
  | [] => true
  | c :: _ => c = ',' || c = ']' || c = rbrace || c = '\n'

theorem restDelim_head_not_dig {rest : List Char} (h : restDelim rest = true) :
    ∀ c, rest.head? = some c → isDig c = false := by
  intro c hc
  cases rest with
  | nil => cases hc
  | cons x t =>
    simp at hc
    subst hc
    simp only [restDelim, Bool.or_eq_true, decide_eq_true_eq] at h
    rcases h with (((e | e) | e) | e) <;> rw [e] <;> decide

theorem floatFollows_of_head {c : Char} (t : List Char) (h1 : c ≠ '.')
    (h2 : c ≠ 'e') (h3 : c ≠ 'E') : floatFollows (c :: t) = false := by
  cases t with
  | nil => rfl
  | cons d t2 => simp [floatFollows, h1, h2, h3]

theorem restDelim_no_float {rest : List Char} (h : restDelim rest = true) :
    floatFollows rest = false := by
  cases rest with
  | nil => rfl
  | cons c t =>
    simp only [restDelim, Bool.or_eq_true, decide_eq_true_eq] at h
    rcases h with (((e | e) | e) | e) <;> subst e <;>
      apply floatFollows_of_head <;> decide

theorem parseNum_print (i : Int) (rest : List Char) (h : restDelim rest = true) :
    parseNum (intToChars i ++ rest) = some (i, rest) := by
  unfold parseNum
  rw [parseIntTok_intToChars _ _ (restDelim_head_not_dig h)]
  simp [restDelim_no_float h]

/-! ### String escape round trip -/

theorem hexVal_hexChar {d : Nat} (h : d < 16) : hexVal? (hexChar d) = some d := by
  interval_cases d <;> decide

theorem readU_hex4 (n : Nat) (hn : n < 65536) (rest : List Char) :
    readU (hex4 n ++ rest) = some (n, rest) := by
  have ha : n / 4096 % 16 < 16 := Nat.mod_lt _ (by omega)
  have hb : n / 256 % 16 < 16 := Nat.mod_lt _ (by omega)
  have hc : n / 16 % 16 < 16 := Nat.mod_lt _ (by omega)
  have hd : n % 16 < 16 := Nat.mod_lt _ (by omega)
  have hsum : n / 4096 % 16 * 4096 + n / 256 % 16 * 256 + n / 16 % 16 * 16 + n % 16 = n := by
    omega
  simp only [hex4, List.cons_append, List.nil_append, readU,
    hexVal_hexChar ha, hexVal_hexChar hb, hexVal_hexChar hc, hexVal_hexChar hd]
  rw [hsum]

theorem decodeEsc_u (n : Nat) (hn : n < 65536) (hs : ¬ (55296 ≤ n ∧ n < 57344))
    (tail : List Char) :
    decodeEsc ('u' :: (hex4 n ++ tail)) = some (Char.ofNat n, tail) := by
  have g1 : ¬ (55296 ≤ n ∧ n < 56320) := fun h => hs ⟨h.1, by omega⟩
  have g2 : ¬ (56320 ≤ n ∧ n < 57344) := fun h => hs ⟨by omega, h.2⟩
  simp only [decodeEsc, reduceIte, readU_hex4 n hn tail]
  rw [if_neg g1, if_neg g2]

theorem decodeEsc_uPair (n : Nat) (hn : 65536 ≤ n) (hlt : n < 1114112)
    (tail : List Char) :
    decodeEsc ('u' :: (hex4 (55296 + (n - 65536) / 1024) ++
        ('\\' :: 'u' :: (hex4 (56320 + (n - 65536) % 1024) ++ tail)))) =
      some (Char.ofNat n, tail) := by
  have hmod := Nat.mod_lt (n - 65536) (show 0 < 1024 by omega)
  have hdiv : (n - 65536) / 1024 < 1024 := by omega
  have hr1 : 55296 ≤ 55296 + (n - 65536) / 1024 ∧ 55296 + (n - 65536) / 1024 < 56320 := by
    constructor <;> omega
  have hr2 : 56320 ≤ 56320 + (n - 65536) % 1024 ∧ 56320 + (n - 65536) % 1024 < 57344 := by
    constructor <;> omega
  have hcomb : 65536 + (55296 + (n - 65536) / 1024 - 55296) * 1024 +
      (56320 + (n - 65536) % 1024 - 56320) = n := by omega
  simp only [decodeEsc, reduceIte,
    readU_hex4 (55296 + (n - 65536) / 1024) (by omega)
      ('\\' :: 'u' :: (hex4 (56320 + (n - 65536) % 1024) ++ tail))]
  rw [if_pos hr1]
  simp only [reduceIte, readU_hex4 (56320 + (n - 65536) % 1024) (by omega) tail]
  rw [if_pos hr2, hcomb]
  simp

theorem decodeEsc_simple {e ec : Char} (he : escCharOf e = some ec) (hne : e ≠ 'u')
    (rest : List Char) : decodeEsc (e :: rest) = some (ec, rest) := by
  simp [decodeEsc, hne, he]

theorem parseStrBody_backslash (fuel : Nat) (rest : List Char) :
    parseStrBody (fuel + 1) ('\\' :: rest) =
      match decodeEsc rest with
      | some p => (parseStrBody fuel p.2).map (fun q => (p.1 :: q.1, q.2))
      | none => none := rfl

theorem parseStrBody_escChar (c : Char) (tail : List Char) (fuel : Nat) :
    parseStrBody (fuel + 1) (escChar c ++ tail) =
      (parseStrBody fuel tail).map (fun p => (c :: p.1, p.2)) := by
  by_cases h1 : c = '"'
  · subst h1; rfl
  by_cases h2 : c = '\\'
  · subst h2; rfl
  by_cases h3 : c = Char.ofNat 8
  · subst h3; rfl
  by_cases h4 : c = '\t'
  · subst h4; rfl
  by_cases h5 : c = '\n'
  · subst h5; rfl
  by_cases h6 : c = Char.ofNat 12
  · subst h6; rfl
  by_cases h7 : c = '\r'
  · subst h7; rfl
  by_cases h8 : (c.toNat < 32 || 127 ≤ c.toNat) = true
  · rw [escChar, if_neg h1, if_neg h2, if_neg h3, if_neg h4, if_neg h5, if_neg h6,
      if_neg h7, if_pos h8]
    by_cases h9 : c.toNat < 65536
    · rw [if_pos h9, List.cons_append, List.cons_append, parseStrBody_backslash,
        decodeEsc_u c.toNat h9 (char_not_surrogate c) tail, Char.ofNat_toNat]
    · rw [if_neg h9]
      simp only [List.cons_append, List.append_assoc]
      rw [parseStrBody_backslash, decodeEsc_uPair c.toNat (by omega) (char_lt_uni c) tail,
        Char.ofNat_toNat]
  · rw [escChar, if_neg h1, if_neg h2, if_neg h3, if_neg h4, if_neg h5, if_neg h6,
      if_neg h7, if_neg h8, List.cons_append, List.nil_append]
    have hlow : ¬ c.toNat < 32 := by
      simp only [Bool.or_eq_true, decide_eq_true_eq, not_or, not_lt] at h8
      omega
    simp only [parseStrBody]
    rw [if_neg h1, if_neg h2, if_neg hlow]

theorem parseStrBody_escList (l : List Char) (rest : List Char) :
    ∀ fuel, l.length < fuel →
      parseStrBody fuel (escList l ++ ('"' :: rest)) = some (l, rest) := by
  induction l with
  | nil =>
    intro fuel hf
    cases fuel with
    | zero => omega
    | succ f => rfl
  | cons c t ih =>
    intro fuel hf
    cases fuel with
    | zero => omega
    | succ f =>
      have ht : t.length < f := by simp at hf; omega
      rw [escList, List.append_assoc, parseStrBody_escChar, ih f ht]
      rfl

theorem escChar_length_pos (c : Char) : 1 ≤ (escChar c).length := by
  unfold escChar
  split_ifs <;> simp [hex4]

theorem escList_length (l : List Char) : l.length ≤ (escList l).length := by
  induction l with
  | nil => simp [escList]
  | cons c t ih =>
    rw [escList, List.length_append]
    have := escChar_length_pos c
    simp only [List.length_cons]
    omega

/-! ### Printed-output head characters and sizes -/

theorem intToChars_head (i : Int) :
    ∃ c tl, intToChars i = c :: tl ∧ (c = '-' ∨ isDig c = true) := by
  by_cases hneg : i < 0
  · exact ⟨'-', natToChars i.natAbs, by rw [intToChars, if_pos hneg], .inl rfl⟩
  · obtain ⟨d, tl, he, hd⟩ := natToChars_head i.toNat
    exact ⟨d, tl, by rw [intToChars, if_neg hneg, he], .inr hd⟩

/-- Possible first characters of a printed JSON value. -/
def headOk (c : Char) : Prop :=
  c = 'n' ∨ c = 't' ∨ c = 'f' ∨ c = '-' ∨ isDig c = true ∨ c = '"' ∨ c = '[' ∨ c = lbrace

theorem printJ_head (ind : Nat) (v : JValue) :
    ∃ c tl, printJ ind v = c :: tl ∧ headOk c := by
  cases v with
  | null => exact ⟨'n', _, rfl, .inl rfl⟩
  | bool b =>
    cases b
    · exact ⟨'f', _, rfl, .inr (.inr (.inl rfl))⟩
    · exact ⟨'t', _, rfl, .inr (.inl rfl)⟩
  | num i =>
    obtain ⟨c, tl, he, hc⟩ := intToChars_head i
    refine ⟨c, tl, ?_, ?_⟩
    · simp only [printJ]; exact he
    · rcases hc with h | h
      · exact .inr (.inr (.inr (.inl h)))
      · exact .inr (.inr (.inr (.inr (.inl h))))
  | str s => exact ⟨'"', _, rfl, .inr (.inr (.inr (.inr (.inr (.inl rfl)))))⟩
  | arr a =>
    cases a
    · exact ⟨'[', _, rfl, .inr (.inr (.inr (.inr (.inr (.inr (.inl rfl))))))⟩
    · exact ⟨'[', _, rfl, .inr (.inr (.inr (.inr (.inr (.inr (.inl rfl))))))⟩
  | obj o =>
    cases o
    · exact ⟨lbrace, _, rfl, .inr (.inr (.inr (.inr (.inr (.inr (.inr rfl))))))⟩
    · exact ⟨lbrace, _, rfl, .inr (.inr (.inr (.inr (.inr (.inr (.inr rfl))))))⟩

theorem headOk_props {c : Char} (h : headOk c) :
    jsonWs c = false ∧ c ≠ ']' ∧ c ≠ rbrace := by
  rcases h with h | h | h | h | h | h | h | h
  all_goals first
    | (subst h; refine ⟨by decide, by decide, by decide⟩)
    | (exact ⟨jsonWs_of_isDig h, ne_of_isDig h (by decide), ne_of_isDig h (by decide)⟩)

theorem restDelim_arrTail (j : Nat) (a : JArr) (l : List Char) :
    restDelim (printArrTail j a ++ '\n' :: l) = true := by
  cases a <;> simp [printArrTail, restDelim]

theorem restDelim_objTail (j : Nat) (o : JObj) (l : List Char) :
    restDelim (printObjTail j o ++ '\n' :: l) = true := by
  cases o <;> simp [printObjTail, restDelim]

theorem sizeJ_pos (v : JValue) : 1 ≤ sizeJ v := by
  cases v <;> simp [sizeJ]

theorem intToChars_ne_nil (i : Int) : 1 ≤ (intToChars i).length := by
  obtain ⟨c, tl, he, _⟩ := intToChars_head i
  rw [he]
  simp

mutual

theorem sizeJ_le_print (ind : Nat) (v : JValue) : sizeJ v ≤ (printJ ind v).length := by
  cases v with
  | null => simp [sizeJ, printJ]
  | bool b => cases b <;> simp [sizeJ, printJ]
  | num i =>
    have := intToChars_ne_nil i
    simp only [sizeJ, printJ]
    omega
  | str s => simp [sizeJ, printJ, escStr]
  | arr a =>
    cases a with
    | nil => simp [sizeJ, sizeA, printJ]
    | cons x xs =>
      have h1 := sizeJ_le_print (ind + 2) x
      have h2 := sizeA_le_print (ind + 2) xs
      simp only [sizeJ, sizeA, printJ, List.length_cons, List.length_append, sp,
        List.length_replicate]
      omega
  | obj o =>
    cases o with
    | nil => simp [sizeJ, sizeO, printJ]
    | cons k v kvs =>
      have h1 := sizeJ_le_print (ind + 2) v
      have h2 := sizeO_le_print (ind + 2) kvs
      simp only [sizeJ, sizeO, printJ, List.length_cons, List.length_append, sp,
        List.length_replicate]
      omega

theorem sizeA_le_print (ind : Nat) (a : JArr) : sizeA a ≤ (printArrTail ind a).length + 1 := by
  cases a with
  | nil => simp [sizeA, printArrTail]
  | cons x xs =>
    have h1 := sizeJ_le_print ind x
    have h2 := sizeA_le_print ind xs
    simp only [sizeA, printArrTail, List.length_cons, List.length_append, sp,
      List.length_replicate]
    omega

theorem sizeO_le_print (ind : Nat) (o : JObj) : sizeO o ≤ (printObjTail ind o).length + 1 := by
  cases o with
  | nil => simp [sizeO, printObjTail]
  | cons k v kvs =>
    have h1 := sizeJ_le_print ind v
    have h2 := sizeO_le_print ind kvs
    simp only [sizeO, printObjTail, List.length_cons, List.length_append, sp,
      List.length_replicate]
    omega

end

/-! ### Parser dispatch steps -/

theorem parseJ_null (f : Nat) (rest : List Char) :
    parseJ (f + 1) ('n' :: 'u' :: 'l' :: 'l' :: rest) = some (.null, rest) := rfl

theorem parseJ_true (f : Nat) (rest : List Char) :
    parseJ (f + 1) ('t' :: 'r' :: 'u' :: 'e' :: rest) = some (.bool true, rest) := rfl

theorem parseJ_false (f : Nat) (rest : List Char) :
    parseJ (f + 1) ('f' :: 'a' :: 'l' :: 's' :: 'e' :: rest) = some (.bool false, rest) := rfl

theorem parseJ_quote (f : Nat) (rest : List Char) :
    parseJ (f + 1) ('"' :: rest) =
      (parseStrBody (rest.length + 1) rest).map (fun p => (.str (String.mk p.1), p.2)) := rfl

theorem parseJ_lbracket (f : Nat) (rest : List Char) :
    parseJ (f + 1) ('[' :: rest) =
      (match skipWs rest with
       | [] => none
       | c2 :: r2 =>
         if c2 = ']' then some (.arr .nil, r2)
         else
           match parseJ f (c2 :: r2) with
           | none => none
           | some (v, r3) =>
             match parseArrTail f r3 with
             | none => none
             | some (xs, r4) => some (.arr (.cons v xs), r4)) := rfl

theorem parseJ_lbraceStep (f : Nat) (rest : List Char) :
    parseJ (f + 1) (lbrace :: rest) =
      (match skipWs rest with
       | [] => none
       | c2 :: r2 =>
         if c2 = rbrace then some (.obj .nil, r2)
         else if c2 = '"' then
           match parseStrBody (r2.length + 1) r2 with
           | none => none
           | some (k, r3) =>
             match skipWs r3 with
             | [] => none
             | c4 :: r4 =>
               if c4 = ':' then
                 match parseJ f r4 with
                 | none => none
                 | some (v, r5) =>
                   match parseObjTail f r5 with
                   | none => none
                   | some (kvs, r6) => some (.obj (.cons (String.mk k) v kvs), r6)
               else none
         else none) := rfl

theorem parseJ_dash (f : Nat) (rest : List Char) :
    parseJ (f + 1) ('-' :: rest) =
      (parseNum ('-' :: rest)).map (fun p => (.num p.1, p.2)) := rfl

theorem parseJ_digit (f : Nat) {d : Char} (hd : isDig d = true) (rest : List Char) :
    parseJ (f + 1) (d :: rest) =
      (parseNum (d :: rest)).map (fun p => (.num p.1, p.2)) := by
  simp only [parseJ]
  rw [skipWs_cons_not (jsonWs_of_isDig hd)]
  dsimp only
  rw [if_neg (ne_of_isDig hd (show isDig 'n' = false by decide)),
    if_neg (ne_of_isDig hd (show isDig 't' = false by decide)),
    if_neg (ne_of_isDig hd (show isDig 'f' = false by decide)),
    if_neg (ne_of_isDig hd (show isDig '"' = false by decide)),
    if_neg (ne_of_isDig hd (show isDig '[' = false by decide)),
    if_neg (ne_of_isDig hd (show isDig lbrace = false by decide))]

theorem sizeA_pos (a : JArr) : 1 ≤ sizeA a := by
  cases a <;> simp only [sizeA] <;> omega

theorem sizeO_pos (o : JObj) : 1 ≤ sizeO o := by
  cases o <;> simp only [sizeO] <;> omega

theorem string_mk_data (s : String) : String.mk s.data = s := rfl

/-! ### Printer / parser round trip -/

theorem parse_print (fuel : Nat) :
    (∀ v ind rest, sizeJ v ≤ fuel → restDelim rest = true →
      parseJ fuel (printJ ind v ++ rest) = some (v, rest)) ∧
    (∀ a j ind rest, sizeA a ≤ fuel → restDelim rest = true →
      parseArrTail fuel (printArrTail j a ++ '\n' :: (sp ind ++ ']' :: rest)) =
        some (a, rest)) ∧
    (∀ o j ind rest, sizeO o ≤ fuel → restDelim rest = true →
      parseObjTail fuel (printObjTail j o ++ '\n' :: (sp ind ++ rbrace :: rest)) =
        some (o, rest)) := by
  induction fuel with
  | zero =>
    refine ⟨?_, ?_, ?_⟩
    · intro v ind rest hs hr
      have := sizeJ_pos v
      omega
    · intro a j ind rest hs hr
      have := sizeA_pos a
      omega
    · intro o j ind rest hs hr
      have := sizeO_pos o
      omega
  | succ f ih =>
    obtain ⟨ihV, ihA, ihO⟩ := ih
    refine ⟨?_, ?_, ?_⟩
    · intro v ind rest hs hr
      cases v with
      | null =>
        simp only [printJ, List.cons_append, List.nil_append]
        exact parseJ_null f rest
      | bool b =>
        cases b
        · simp only [printJ, List.cons_append, List.nil_append]
          exact parseJ_false f rest
        · simp only [printJ, List.cons_append, List.nil_append]
          exact parseJ_true f rest
      | num i =>
        simp only [printJ]
        by_cases hneg : i < 0
        · rw [intToChars, if_pos hneg, List.cons_append, parseJ_dash, ← List.cons_append,
            show '-' :: natToChars i.natAbs = intToChars i by rw [intToChars, if_pos hneg],
            parseNum_print i rest hr]
          rfl
        · obtain ⟨d, tl, he, hd2⟩ := natToChars_head i.toNat
          rw [intToChars, if_neg hneg, he, List.cons_append, parseJ_digit f hd2,
            ← List.cons_append, ← he,
            show natToChars i.toNat = intToChars i by rw [intToChars, if_neg hneg],
            parseNum_print i rest hr]
          rfl
      | str s =>
        simp only [printJ, escStr, List.cons_append, List.append_assoc,
          List.singleton_append, List.nil_append]
        rw [parseJ_quote, parseStrBody_escList s.data rest _
          (by have := escList_length s.data
              simp only [List.length_append, List.length_cons]
              omega)]
        rfl
      | arr a =>
        cases a with
        | nil =>
          simp only [printJ, List.cons_append, List.nil_append]
          rw [parseJ_lbracket, skipWs_cons_not (by decide)]
          dsimp only
          rw [if_pos rfl]
        | cons x xs =>
          simp only [printJ, List.cons_append, List.append_assoc, List.singleton_append,
            List.nil_append]
          rw [parseJ_lbracket, skipWs_cons_ws (by decide), skipWs_sp]
          obtain ⟨c2, tl, hpr, hho⟩ := printJ_head (ind + 2) x
          obtain ⟨hws, hne1, hne2⟩ := headOk_props hho
          rw [hpr, List.cons_append, skipWs_cons_not hws]
          dsimp only
          rw [if_neg hne1, ← List.cons_append, ← hpr]
          have hx : sizeJ x ≤ f := by
            simp only [sizeJ, sizeA] at hs
            omega
          have hxs : sizeA xs ≤ f := by
            simp only [sizeJ, sizeA] at hs
            omega
          rw [ihV x (ind + 2) _ hx (restDelim_arrTail (ind + 2) xs _)]
          dsimp only
          rw [ihA xs (ind + 2) ind rest hxs hr]
      | obj o =>
        cases o with
        | nil =>
          simp only [printJ, List.cons_append, List.nil_append]
          rw [parseJ_lbraceStep, skipWs_cons_not (by decide)]
          dsimp only
          rw [if_pos rfl]
        | cons k v' kvs =>
          simp only [printJ, escStr, List.cons_append, List.append_assoc,
            List.singleton_append, List.nil_append]
          rw [parseJ_lbraceStep, skipWs_cons_ws (by decide), skipWs_sp,
            skipWs_cons_not (by decide)]
          dsimp only
          rw [if_neg (by decide : ¬ ('"' : Char) = rbrace), if_pos rfl]
          rw [parseStrBody_escList k.data _ _
            (by have := escList_length k.data
                simp only [List.length_append, List.length_cons]
                omega)]
          dsimp only
          rw [skipWs_cons_not (by decide)]
          dsimp only
          rw [if_pos rfl]
          have hv : sizeJ v' ≤ f := by
            simp only [sizeJ, sizeO] at hs
            omega
          have hkvs : sizeO kvs ≤ f := by
            simp only [sizeJ, sizeO] at hs
            omega
          have hsp2 : parseJ f (' ' :: (printJ (ind + 2) v' ++
              (printObjTail (ind + 2) kvs ++ '\n' :: (sp ind ++ rbrace :: rest)))) =
              parseJ f (printJ (ind + 2) v' ++
              (printObjTail (ind + 2) kvs ++ '\n' :: (sp ind ++ rbrace :: rest))) := by
            rw [← parseJ_skipWs f (' ' :: _), skipWs_cons_ws (by decide), parseJ_skipWs]
          rw [hsp2, ihV v' (ind + 2) _ hv (restDelim_objTail (ind + 2) kvs _)]
          dsimp only
          rw [ihO kvs (ind + 2) ind rest hkvs hr]
    · intro a j ind rest hs hr
      cases a with
      | nil =>
        simp only [printArrTail, List.nil_append]
        simp only [parseArrTail]
        rw [skipWs_cons_ws (by decide), skipWs_sp, skipWs_cons_not (by decide)]
        dsimp only
        rw [if_pos rfl]
      | cons x xs =>
        simp only [printArrTail, List.cons_append, List.append_assoc, List.nil_append]
        simp only [parseArrTail]
        rw [skipWs_cons_not (by decide)]
        dsimp only
        rw [if_neg (by decide : ¬ (',' : Char) = ']'), if_pos rfl]
        have hskip : parseJ f ('\n' :: (sp j ++ (printJ j x ++
            (printArrTail j xs ++ '\n' :: (sp ind ++ ']' :: rest))))) =
            parseJ f (printJ j x ++
            (printArrTail j xs ++ '\n' :: (sp ind ++ ']' :: rest))) := by
          rw [← parseJ_skipWs f ('\n' :: _), skipWs_cons_ws (by decide), skipWs_sp,
            parseJ_skipWs]
        rw [hskip]
        have hx : sizeJ x ≤ f := by
          simp only [sizeA] at hs
          omega
        have hxs : sizeA xs ≤ f := by
          simp only [sizeA] at hs
          omega
        rw [ihV x j _ hx (restDelim_arrTail j xs _)]
        dsimp only
        rw [ihA xs j ind rest hxs hr]
    · intro o j ind rest hs hr
      cases o with
      | nil =>
        simp only [printObjTail, List.nil_append]
        simp only [parseObjTail]
        rw [skipWs_cons_ws (by decide), skipWs_sp, skipWs_cons_not (by decide)]
        dsimp only
        rw [if_pos rfl]
      | cons k v' kvs =>
        simp only [printObjTail, escStr, List.cons_append, List.append_assoc,
          List.singleton_append, List.nil_append]
        simp only [parseObjTail]
        rw [skipWs_cons_not (by decide)]
        dsimp only
        rw [if_neg (by decide : ¬ (',' : Char) = rbrace), if_pos rfl]
        rw [skipWs_cons_ws (by decide), skipWs_sp, skipWs_cons_not (by decide)]
        dsimp only
        rw [if_pos rfl]
        rw [parseStrBody_escList k.data _ _
          (by have := escList_length k.data
              simp only [List.length_append, List.length_cons]
              omega)]
        dsimp only
        rw [skipWs_cons_not (by decide)]
        dsimp only
        rw [if_pos rfl]
        have hv : sizeJ v' ≤ f := by
          simp only [sizeO] at hs
          omega
        have hkvs : sizeO kvs ≤ f := by
          simp only [sizeO] at hs
          omega
        have hsp2 : parseJ f (' ' :: (printJ j v' ++
            (printObjTail j kvs ++ '\n' :: (sp ind ++ rbrace :: rest)))) =
            parseJ f (printJ j v' ++
            (printObjTail j kvs ++ '\n' :: (sp ind ++ rbrace :: rest))) := by
          rw [← parseJ_skipWs f (' ' :: _), skipWs_cons_ws (by decide), parseJ_skipWs]
        rw [hsp2, ihV v' j _ hv (restDelim_objTail j kvs _)]
        dsimp only
        rw [ihO kvs j ind rest hkvs hr]

/-! ### Top-level round trip and `_safe_json` -/

theorem loads_dumps (v : JValue) : loads (dumps v) = some v := by
  have hs : sizeJ v ≤ (printJ 0 v).length + 1 := Nat.le_succ_of_le (sizeJ_le_print 0 v)
  have h := (parse_print ((printJ 0 v).length + 1)).1 v 0 [] hs rfl
  rw [List.append_nil] at h
  unfold loads dumps
  rw [show (String.mk (printJ 0 v)).length = (printJ 0 v).length from rfl,
    show (String.mk (printJ 0 v)).data = printJ 0 v from rfl, h]
  rfl

theorem safe_json_of_parse {t : String} {v : JValue} (h : loads t = some v) :
    _safe_json t = dumps v := by
  simp [_safe_json, h]

theorem safe_json_of_not_json {t : String} (h : loads t = none) : _safe_json t = t := by
  simp [_safe_json, h]

theorem safe_json_idem (t : String) : _safe_json (_safe_json t) = _safe_json t := by
  cases h : loads t with
  | none =>
    rw [safe_json_of_not_json h]
    exact safe_json_of_not_json h
  | some v => rw [safe_json_of_parse h, safe_json_of_parse (loads_dumps v)]

/-- Keys of any string-keyed association list. -/
def resKeys' {α : Type} (d : List (String × α)) : List String := d.map Prod.fst

/-! ### Result-mapping (Python dict) lemmas -/

theorem resKeys_eq (res : List (String × String)) : resKeys res = resKeys' res := rfl

theorem mem_resKeys_pySet {α : Type} {d : List (String × α)} {k k' : String} {v : α}
    (h : k' ∈ resKeys' (pySet d k v)) : k' = k ∨ k' ∈ resKeys' d := by
  unfold pySet at h
  split at h
  · simp only [resKeys', List.map_map, List.mem_map, Function.comp] at h
    obtain ⟨p, hp, he⟩ := h
    by_cases hpk : p.1 = k
    · rw [if_pos (by simpa using hpk)] at he
      exact .inl he.symm
    · rw [if_neg (by simpa using hpk)] at he
      exact .inr (by simp only [resKeys', List.mem_map]; exact ⟨p, hp, he⟩)
  · simp only [resKeys', List.map_append, List.mem_append, List.map_cons, List.map_nil,
      List.mem_cons, List.not_mem_nil, or_false] at h
    rcases h with h | h
    · exact .inr h
    · exact .inl h

theorem jLookup_cons_pos {α : Type} {q : String × α} {t : List (String × α)} {k : String}
    (h : q.1 = k) : jLookup (q :: t) k = some q.2 := by
  unfold jLookup
  rw [List.find?_cons_of_pos _ (by simpa using h)]
  rfl

theorem jLookup_cons_neg {α : Type} {q : String × α} {t : List (String × α)} {k : String}
    (h : ¬ q.1 = k) : jLookup (q :: t) k = jLookup t k := by
  unfold jLookup
  rw [List.find?_cons_of_neg _ (by simpa using h)]

theorem jLookup_map_overwrite_same {α : Type} {k : String} {v : α} :
    ∀ {d : List (String × α)}, (∃ p ∈ d, p.1 = k) →
    jLookup (d.map (fun p => if p.1 == k then (k, v) else p)) k = some v := by
  intro d
  induction d with
  | nil => intro h; simp at h
  | cons q t ih =>
    intro h
    by_cases hq : q.1 = k
    · rw [List.map_cons, if_pos (by simpa using hq), jLookup_cons_pos rfl]
    · rw [List.map_cons, if_neg (by simpa using hq), jLookup_cons_neg hq]
      apply ih
      rcases h with ⟨p, hp, he⟩
      rcases List.mem_cons.mp hp with rfl | hp2
      · exact absurd he hq
      · exact ⟨p, hp2, he⟩

theorem jLookup_pySet_same {α : Type} (d : List (String × α)) (k : String) (v : α) :
    jLookup (pySet d k v) k = some v := by
  unfold pySet
  split
  · rename_i hany
    simp only [List.any_eq_true, beq_iff_eq] at hany
    exact jLookup_map_overwrite_same hany
  · rename_i hany
    induction d with
    | nil => exact jLookup_cons_pos rfl
    | cons q t ih =>
      have hq : ¬ q.1 = k := by
        intro e
        exact hany (by simp only [List.any_cons, Bool.or_eq_true]
                       exact .inl (by simpa using e))
      rw [List.cons_append, jLookup_cons_neg hq]
      exact ih (fun hc => hany (by simp only [List.any_cons, Bool.or_eq_true]
                                   exact .inr hc))

theorem jLookup_map_overwrite_other {α : Type} {k k' : String} (h : k' ≠ k) (v : α) :
    ∀ (d : List (String × α)),
      jLookup (d.map (fun p => if p.1 == k then (k, v) else p)) k' = jLookup d k' := by
  intro d
  induction d with
  | nil => rfl
  | cons q t ih =>
    by_cases hq : q.1 = k
    · rw [List.map_cons, if_pos (by simpa using hq),
        jLookup_cons_neg (show ¬ k = k' from fun e => h e.symm),
        jLookup_cons_neg (show ¬ q.1 = k' from fun e => h (by rw [← e, hq])), ih]
    · rw [List.map_cons, if_neg (by simpa using hq)]
      by_cases hq' : q.1 = k'
      · rw [jLookup_cons_pos hq', jLookup_cons_pos hq']
      · rw [jLookup_cons_neg hq', jLookup_cons_neg hq', ih]

theorem jLookup_append_single_other {α : Type} {k k' : String} (h : k' ≠ k) (v : α) :
    ∀ (d : List (String × α)), jLookup (d ++ [(k, v)]) k' = jLookup d k' := by
  intro d
  induction d with
  | nil =>
    rw [List.nil_append, jLookup_cons_neg (show ¬ k = k' from fun e => h e.symm)]
  | cons q t ih =>
    by_cases hq' : q.1 = k'
    · rw [List.cons_append, jLookup_cons_pos hq', jLookup_cons_pos hq']
    · rw [List.cons_append, jLookup_cons_neg hq', jLookup_cons_neg hq', ih]

theorem jLookup_pySet_other {α : Type} (d : List (String × α)) {k k' : String} (v : α)
    (h : k' ≠ k) : jLookup (pySet d k v) k' = jLookup d k' := by
  unfold pySet
  split
  · exact jLookup_map_overwrite_other h v d
  · exact jLookup_append_single_other h v d

theorem jLookup_none_iff {α : Type} (d : List (String × α)) (k : String) :
    jLookup d k = none ↔ k ∉ resKeys' d := by
  induction d with
  | nil => simp [jLookup, List.find?, resKeys']
  | cons q t ih =>
    by_cases hq : q.1 = k
    · rw [jLookup_cons_pos hq]
      simp [resKeys', hq]
    · rw [jLookup_cons_neg hq, ih]
      simp only [resKeys', List.map_cons, List.mem_cons, not_or]
      constructor
      · exact fun hk => ⟨fun e => hq e.symm, hk⟩
      · exact fun hk => hk.2

/-! ### Conversation pairing predicate -/

/-- Identifiers advertised by the most recent assistant message, after
scanning the given messages (starting from `i`). -/
def lastIds : List Message → Option (List String) → Option (List String)
  | [], i => i
  | .assistant m :: rest, _ => lastIds rest (some (m.tool_calls.map ToolCall.id))
  | .system _ :: rest, i => lastIds rest i
  | .user _ :: rest, i => lastIds rest i
  | .tool _ _ :: rest, i => lastIds rest i

/-- Every tool message references a call identifier advertised by the
most recent assistant message before it. -/
def toolPaired : List Message → Option (List String) → Bool
  | [], _ => true
  | .assistant m :: rest, _ => toolPaired rest (some (m.tool_calls.map ToolCall.id))
  | .tool cid _ :: rest, i =>
    (match i with
     | none => false
     | some ids => ids.contains cid) && toolPaired rest i
  | .system _ :: rest, i => toolPaired rest i
  | .user _ :: rest, i => toolPaired rest i

theorem lastIds_append (xs ys : List Message) (i : Option (List String)) :
    lastIds (xs ++ ys) i = lastIds ys (lastIds xs i) := by
  induction xs generalizing i with
  | nil => rfl
  | cons m t ih => cases m <;> simp [lastIds, ih]

theorem toolPaired_append (xs ys : List Message) (i : Option (List String)) :
    toolPaired (xs ++ ys) i = (toolPaired xs i && toolPaired ys (lastIds xs i)) := by
  induction xs generalizing i with
  | nil => simp [toolPaired, lastIds]
  | cons m t ih => cases m <;> simp [toolPaired, lastIds, ih, Bool.and_assoc]

theorem mem_contains {l : List String} {x : String} (h : x ∈ l) : l.contains x = true := by
  simpa using h

/-- A tool name occurs in some assistant message's invocation set. -/
def requestedIn (msgs : List Message) (k : String) : Prop :=
  ∃ m tc, Message.assistant m ∈ msgs ∧ tc ∈ m.tool_calls ∧ tc.function.name = k

theorem requestedIn_mono {msgs ext : List Message} {k : String}
    (h : requestedIn msgs k) : requestedIn (msgs ++ ext) k := by
  obtain ⟨m, tc, hm, htc, hn⟩ := h
  exact ⟨m, tc, List.mem_append.mpr (.inl hm), htc, hn⟩

/-! ### Step equations for `runCalls` and `agentLoop` -/

theorem runCalls_nil (env : Env) (res : List (String × String)) (msgs : List Message)
    (recs : List CallRecord) : runCalls env [] res msgs recs = (.ok res, msgs, recs) := rfl

theorem runCalls_badjson {env : Env} {tc : ToolCall} (rest : List ToolCall)
    (res : List (String × String)) (msgs : List Message) (recs : List CallRecord)
    (hld : loads tc.function.arguments = none) :
    runCalls env (tc :: rest) res msgs recs = (.error .jsonDecodeError, msgs, recs) := by
  simp only [runCalls, hld]

theorem runCalls_unknown {env : Env} {tc : ToolCall} {o : JValue} (rest : List ToolCall)
    (res : List (String × String)) (msgs : List Message) (recs : List CallRecord)
    (hld : loads tc.function.arguments = some o)
    (htm : TOOL_MAP_params tc.function.name = none) :
    runCalls env (tc :: rest) res msgs recs =
      runCalls env rest (pySet res tc.function.name (unknownToolPayload tc.function.name))
        (msgs ++ [.tool tc.id (unknownToolPayload tc.function.name)])
        (recs ++ [⟨tc, res, none⟩]) := by
  simp only [runCalls, hld, htm]

theorem runCalls_kwerr {env : Env} {tc : ToolCall} {o : JValue} {params : List String}
    {e : PyError} (rest : List ToolCall) (res : List (String × String))
    (msgs : List Message) (recs : List CallRecord)
    (hld : loads tc.function.arguments = some o)
    (htm : TOOL_MAP_params tc.function.name = some params)
    (hkw : kwApply env tc.function.name params o = .error e) :
    runCalls env (tc :: rest) res msgs recs = (.error e, msgs, recs) := by
  simp only [runCalls, hld, htm, hkw]

theorem runCalls_kwok {env : Env} {tc : ToolCall} {o : JValue} {params : List String}
    {out : String} {sa : List (String × String)} (rest : List ToolCall)
    (res : List (String × String)) (msgs : List Message) (recs : List CallRecord)
    (hld : loads tc.function.arguments = some o)
    (htm : TOOL_MAP_params tc.function.name = some params)
    (hkw : kwApply env tc.function.name params o = .ok (out, sa)) :
    runCalls env (tc :: rest) res msgs recs =
      runCalls env rest (pySet res tc.function.name out)
        (msgs ++ [.tool tc.id out]) (recs ++ [⟨tc, res, some sa⟩]) := by
  simp only [runCalls, hld, htm, hkw]

theorem agentLoop_zero (env : Env) (round : Nat) (res : List (String × String))
    (msgs : List Message) (recs : List CallRecord) :
    agentLoop env 0 round res msgs recs = ⟨.ok res, round, msgs, recs⟩ := rfl

theorem agentLoop_nochoice {env : Env} {round : Nat} (f : Nat)
    (res : List (String × String)) (msgs : List Message) (recs : List CallRecord)
    (hch : (env.chat round).choices = []) :
    agentLoop env (f + 1) round res msgs recs = ⟨.error .indexError, round + 1, msgs, recs⟩ := by
  simp only [agentLoop, hch]

theorem agentLoop_final {env : Env} {round : Nat} {ch : ChatChoice} {tlc : List ChatChoice}
    (f : Nat) (res : List (String × String)) (msgs : List Message) (recs : List CallRecord)
    (hch : (env.chat round).choices = ch :: tlc)
    (hemp : ch.message.tool_calls.isEmpty = true) :
    agentLoop env (f + 1) round res msgs recs =
      ⟨.ok (pySet res "final_summary" (stripContent ch.message.content)),
        round + 1, msgs, recs⟩ := by
  simp only [agentLoop, hch, hemp, if_true]

theorem agentLoop_step_err {env : Env} {round : Nat} {ch : ChatChoice}
    {tlc : List ChatChoice} {e : PyError} {m2 : List Message} {r2 : List CallRecord}
    (f : Nat) (res : List (String × String)) (msgs : List Message) (recs : List CallRecord)
    (hch : (env.chat round).choices = ch :: tlc)
    (hemp : ch.message.tool_calls.isEmpty = false)
    (hrc : runCalls env ch.message.tool_calls res (msgs ++ [.assistant ch.message]) recs =
      (.error e, m2, r2)) :
    agentLoop env (f + 1) round res msgs recs = ⟨.error e, round + 1, m2, r2⟩ := by
  simp only [agentLoop, hch, hemp, Bool.false_eq_true, if_false, hrc]

theorem agentLoop_step_tools {env : Env} {round : Nat} {ch : ChatChoice}
    {tlc : List ChatChoice} {res' : List (String × String)} {m2 : List Message}
    {r2 : List CallRecord} (f : Nat) (res : List (String × String)) (msgs : List Message)
    (recs : List CallRecord)
    (hch : (env.chat round).choices = ch :: tlc)
    (hemp : ch.message.tool_calls.isEmpty = false)
    (hrc : runCalls env ch.message.tool_calls res (msgs ++ [.assistant ch.message]) recs =
      (.ok res', m2, r2)) :
    agentLoop env (f + 1) round res msgs recs = agentLoop env f (round + 1) res' m2 r2 := by
  simp only [agentLoop, hch, hemp, Bool.false_eq_true, if_false, hrc]

/-! ### Loop invariants -/

theorem agentLoop_rounds (env : Env) : ∀ fuel round res msgs recs,
    (agentLoop env fuel round res msgs recs).rounds ≤ round + fuel := by
  intro fuel
  induction fuel with
  | zero =>
    intro round res msgs recs
    rw [agentLoop_zero]
    dsimp only
    omega
  | succ f ih =>
    intro round res msgs recs
    cases hch : (env.chat round).choices with
    | nil =>
      rw [agentLoop_nochoice f res msgs recs hch]
      dsimp only
      omega
    | cons ch tlc =>
      cases hemp : ch.message.tool_calls.isEmpty with
      | true =>
        rw [agentLoop_final f res msgs recs hch hemp]
        dsimp only
        omega
      | false =>
        rcases hrc : runCalls env ch.message.tool_calls res
            (msgs ++ [.assistant ch.message]) recs with ⟨exc, m2, r2⟩
        cases exc with
        | error e =>
          rw [agentLoop_step_err f res msgs recs hch hemp hrc]
          dsimp only
          omega
        | ok res' =>
          rw [agentLoop_step_tools f res msgs recs hch hemp hrc]
          have := ih (round + 1) res' m2 r2
          omega

theorem runCalls_msgs_ext (env : Env) : ∀ (calls : List ToolCall) res msgs recs,
    ∃ ext, (runCalls env calls res msgs recs).2.1 = msgs ++ ext := by
  intro calls
  induction calls with
  | nil =>
    intro res msgs recs
    exact ⟨[], by rw [runCalls_nil]; simp⟩
  | cons tc rest ih =>
    intro res msgs recs
    cases hld : loads tc.function.arguments with
    | none =>
      rw [runCalls_badjson rest res msgs recs hld]
      exact ⟨[], by simp⟩
    | some o =>
      cases htm : TOOL_MAP_params tc.function.name with
      | none =>
        rw [runCalls_unknown rest res msgs recs hld htm]
        obtain ⟨ext, he⟩ := ih (pySet res tc.function.name (unknownToolPayload tc.function.name))
          (msgs ++ [.tool tc.id (unknownToolPayload tc.function.name)]) (recs ++ [⟨tc, res, none⟩])
        exact ⟨.tool tc.id (unknownToolPayload tc.function.name) :: ext, by
          rw [he]; simp⟩
      | some params =>
        cases hkw : kwApply env tc.function.name params o with
        | error e =>
          rw [runCalls_kwerr rest res msgs recs hld htm hkw]
          exact ⟨[], by simp⟩
        | ok p =>
          obtain ⟨out, sa⟩ := p
          rw [runCalls_kwok rest res msgs recs hld htm hkw]
          obtain ⟨ext, he⟩ := ih (pySet res tc.function.name out)
            (msgs ++ [.tool tc.id out]) (recs ++ [⟨tc, res, some sa⟩])
          exact ⟨.tool tc.id out :: ext, by rw [he]; simp⟩

theorem agentLoop_msgs_ext (env : Env) : ∀ fuel round res msgs recs,
    ∃ ext, (agentLoop env fuel round res msgs recs).msgs = msgs ++ ext := by
  intro fuel
  induction fuel with
  | zero =>
    intro round res msgs recs
    exact ⟨[], by rw [agentLoop_zero]; simp⟩
  | succ f ih =>
    intro round res msgs recs
    cases hch : (env.chat round).choices with
    | nil =>
      rw [agentLoop_nochoice f res msgs recs hch]
      exact ⟨[], by simp⟩
    | cons ch tlc =>
      cases hemp : ch.message.tool_calls.isEmpty with
      | true =>
        rw [agentLoop_final f res msgs recs hch hemp]
        exact ⟨[], by simp⟩
      | false =>
        rcases hrc : runCalls env ch.message.tool_calls res
            (msgs ++ [.assistant ch.message]) recs with ⟨exc, m2, r2⟩
        obtain ⟨ext1, he1⟩ := runCalls_msgs_ext env ch.message.tool_calls res
          (msgs ++ [.assistant ch.message]) recs
        rw [hrc] at he1
        cases exc with
        | error e =>
          rw [agentLoop_step_err f res msgs recs hch hemp hrc]
          exact ⟨.assistant ch.message :: ext1, by simpa using he1⟩
        | ok res' =>
          rw [agentLoop_step_tools f res msgs recs hch hemp hrc]
          obtain ⟨ext2, he2⟩ := ih (round + 1) res' m2 r2
          refine ⟨.assistant ch.message :: (ext1 ++ ext2), ?_⟩
          rw [he2]
          simp at he1
          rw [he1]
          simp

theorem runCalls_toolPaired (env : Env) : ∀ (calls : List ToolCall) res msgs recs ids,
    toolPaired msgs none = true →
    lastIds msgs none = some ids →
    (∀ tc ∈ calls, ids.contains tc.id = true) →
    toolPaired (runCalls env calls res msgs recs).2.1 none = true ∧
      lastIds (runCalls env calls res msgs recs).2.1 none = some ids := by
  intro calls
  induction calls with
  | nil =>
    intro res msgs recs ids hp hl _
    rw [runCalls_nil]
    exact ⟨hp, hl⟩
  | cons tc rest ih =>
    intro res msgs recs ids hp hl hin
    have hid : ids.contains tc.id = true := hin tc (by simp)
    have hrest : ∀ tc2 ∈ rest, ids.contains tc2.id = true :=
      fun tc2 h2 => hin tc2 (by simp [h2])
    cases hld : loads tc.function.arguments with
    | none =>
      rw [runCalls_badjson rest res msgs recs hld]
      exact ⟨hp, hl⟩
    | some o =>
      have hstep : ∀ (content : String),
          toolPaired (msgs ++ [.tool tc.id content]) none = true ∧
            lastIds (msgs ++ [.tool tc.id content]) none = some ids := by
        intro content
        constructor
        · rw [toolPaired_append, hp, hl]
          simp [toolPaired]
          simpa using hid
        · rw [lastIds_append, hl]
          rfl
      cases htm : TOOL_MAP_params tc.function.name with
      | none =>
        rw [runCalls_unknown rest res msgs recs hld htm]
        obtain ⟨h1, h2⟩ := hstep (unknownToolPayload tc.function.name)
        exact ih _ _ _ ids h1 h2 hrest
      | some params =>
        cases hkw : kwApply env tc.function.name params o with
        | error e =>
          rw [runCalls_kwerr rest res msgs recs hld htm hkw]
          exact ⟨hp, hl⟩
        | ok p =>
          obtain ⟨out, sa⟩ := p
          rw [runCalls_kwok rest res msgs recs hld htm hkw]
          obtain ⟨h1, h2⟩ := hstep out
          exact ih _ _ _ ids h1 h2 hrest

theorem agentLoop_toolPaired (env : Env) : ∀ fuel round res msgs recs,
    toolPaired msgs none = true →
    toolPaired (agentLoop env fuel round res msgs recs).msgs none = true := by
  intro fuel
  induction fuel with
  | zero =>
    intro round res msgs recs hp
    rw [agentLoop_zero]
    exact hp
  | succ f ih =>
    intro round res msgs recs hp
    cases hch : (env.chat round).choices with
    | nil =>
      rw [agentLoop_nochoice f res msgs recs hch]
      exact hp
    | cons ch tlc =>
      cases hemp : ch.message.tool_calls.isEmpty with
      | true =>
        rw [agentLoop_final f res msgs recs hch hemp]
        exact hp
      | false =>
        have hp1 : toolPaired (msgs ++ [.assistant ch.message]) none = true := by
          rw [toolPaired_append, hp]
          rfl
        have hl1 : lastIds (msgs ++ [.assistant ch.message]) none =
            some (ch.message.tool_calls.map ToolCall.id) := by
          rw [lastIds_append]
          rfl
        have hin : ∀ tc ∈ ch.message.tool_calls,
            (ch.message.tool_calls.map ToolCall.id).contains tc.id = true := by
          intro tc htc
          exact mem_contains (List.mem_map.mpr ⟨tc, htc, rfl⟩)
        have hrcp := runCalls_toolPaired env ch.message.tool_calls res
          (msgs ++ [.assistant ch.message]) recs _ hp1 hl1 hin
        rcases hrc : runCalls env ch.message.tool_calls res
            (msgs ++ [.assistant ch.message]) recs with ⟨exc, m2, r2⟩
        rw [hrc] at hrcp
        cases exc with
        | error e =>
          rw [agentLoop_step_err f res msgs recs hch hemp hrc]
          exact hrcp.1
        | ok res' =>
          rw [agentLoop_step_tools f res msgs recs hch hemp hrc]
          exact ih (round + 1) res' m2 r2 hrcp.1

theorem runCalls_keys (env : Env) : ∀ (calls : List ToolCall) res msgs recs res2 m2 r2,
    runCalls env calls res msgs recs = (.ok res2, m2, r2) →
    ∀ k ∈ resKeys' res2, k ∈ resKeys' res ∨ ∃ tc ∈ calls, tc.function.name = k := by
  intro calls
  induction calls with
  | nil =>
    intro res msgs recs res2 m2 r2 h k hk
    rw [runCalls_nil] at h
    cases h
    exact .inl hk
  | cons tc rest ih =>
    intro res msgs recs res2 m2 r2 h k hk
    cases hld : loads tc.function.arguments with
    | none =>
      rw [runCalls_badjson rest res msgs recs hld] at h
      exact absurd (congrArg Prod.fst h) (by simp)
    | some o =>
      cases htm : TOOL_MAP_params tc.function.name with
      | none =>
        rw [runCalls_unknown rest res msgs recs hld htm] at h
        rcases ih _ _ _ _ _ _ h k hk with h2 | ⟨tc2, htc2, hn2⟩
        · rcases mem_resKeys_pySet h2 with h3 | h3
          · exact .inr ⟨tc, by simp, h3.symm ▸ rfl⟩
          · exact .inl h3
        · exact .inr ⟨tc2, by simp [htc2], hn2⟩
      | some params =>
        cases hkw : kwApply env tc.function.name params o with
        | error e =>
          rw [runCalls_kwerr rest res msgs recs hld htm hkw] at h
          exact absurd (congrArg Prod.fst h) (by simp)
        | ok p =>
          obtain ⟨out, sa⟩ := p
          rw [runCalls_kwok rest res msgs recs hld htm hkw] at h
          rcases ih _ _ _ _ _ _ h k hk with h2 | ⟨tc2, htc2, hn2⟩
          · rcases mem_resKeys_pySet h2 with h3 | h3
            · exact .inr ⟨tc, by simp, h3.symm ▸ rfl⟩
            · exact .inl h3
          · exact .inr ⟨tc2, by simp [htc2], hn2⟩

theorem agentLoop_keys (env : Env) : ∀ fuel round res msgs recs res2,
    (agentLoop env fuel round res msgs recs).outcome = .ok res2 →
    ∀ k ∈ resKeys' res2, k ∈ resKeys' res ∨ k = "final_summary" ∨
      requestedIn (agentLoop env fuel round res msgs recs).msgs k := by
  intro fuel
  induction fuel with
  | zero =>
    intro round res msgs recs res2 h k hk
    rw [agentLoop_zero] at h
    injection h with h1
    exact .inl (h1 ▸ hk)
  | succ f ih =>
    intro round res msgs recs res2 h k hk
    cases hch : (env.chat round).choices with
    | nil =>
      rw [agentLoop_nochoice f res msgs recs hch] at h
      cases h
    | cons ch tlc =>
      cases hemp : ch.message.tool_calls.isEmpty with
      | true =>
        rw [agentLoop_final f res msgs recs hch hemp] at h
        injection h with h1
        rcases mem_resKeys_pySet (h1 ▸ hk) with h2 | h2
        · exact .inr (.inl h2)
        · exact .inl h2
      | false =>
        rcases hrc : runCalls env ch.message.tool_calls res
            (msgs ++ [.assistant ch.message]) recs with ⟨exc, m2, r2⟩
        cases exc with
        | error e =>
          rw [agentLoop_step_err f res msgs recs hch hemp hrc] at h
          cases h
        | ok res' =>
          have hstep := agentLoop_step_tools f res msgs recs hch hemp hrc
          rw [hstep] at h
          rw [hstep]
          rcases ih (round + 1) res' m2 r2 res2 h k hk with h2 | h2 | h2
          · rcases runCalls_keys env ch.message.tool_calls res
                (msgs ++ [.assistant ch.message]) recs res' m2 r2 hrc k h2 with h3 | ⟨tc, htc, hn⟩
            · exact .inl h3
            · refine .inr (.inr ?_)
              obtain ⟨ext1, he1⟩ := runCalls_msgs_ext env ch.message.tool_calls res
                (msgs ++ [.assistant ch.message]) recs
              rw [hrc] at he1
              simp only at he1
              obtain ⟨ext2, he2⟩ := agentLoop_msgs_ext env f (round + 1) res' m2 r2
              rw [he2, he1]
              exact ⟨ch.message, tc, by simp, htc, hn⟩
          · exact .inr (.inl h2)
          · exact .inr (.inr h2)

theorem runCalls_no_fs (env : Env) (calls : List ToolCall) (res : List (String × String))
    (msgs : List Message) (recs : List CallRecord) {res2 : List (String × String)}
    {m2 : List Message} {r2 : List CallRecord}
    (h : runCalls env calls res msgs recs = (.ok res2, m2, r2))
    (hno : ∀ tc ∈ calls, tc.function.name ≠ "final_summary")
    (hfs : jLookup res "final_summary" = none) :
    jLookup res2 "final_summary" = none := by
  rw [jLookup_none_iff] at hfs ⊢
  intro hk
  rcases runCalls_keys env calls res msgs recs res2 m2 r2 h _ hk with h2 | ⟨tc, htc, hn⟩
  · exact hfs h2
  · exact hno tc htc hn

theorem isEmpty_false_of_ne_nil {α : Type} {l : List α} (h : l ≠ []) :
    l.isEmpty = false := by
  cases l with
  | nil => exact absurd rfl h
  | cons a t => rfl

theorem agentLoop_all_tools (env : Env) : ∀ fuel round res msgs recs res2,
    (∀ r, round ≤ r → r < round + fuel →
      ∃ ch tlc, (env.chat r).choices = ch :: tlc ∧ ch.message.tool_calls ≠ []) →
    (agentLoop env fuel round res msgs recs).outcome = .ok res2 →
    (agentLoop env fuel round res msgs recs).rounds = round + fuel ∧
    ((∀ r ch tlc tc, (env.chat r).choices = ch :: tlc → tc ∈ ch.message.tool_calls →
        tc.function.name ≠ "final_summary") →
      jLookup res "final_summary" = none →
      jLookup res2 "final_summary" = none) := by
  intro fuel
  induction fuel with
  | zero =>
    intro round res msgs recs res2 _ h
    rw [agentLoop_zero] at h ⊢
    injection h with h1
    exact ⟨rfl, fun _ hfs => h1 ▸ hfs⟩
  | succ f ih =>
    intro round res msgs recs res2 htools h
    obtain ⟨ch, tlc, hch, hnt⟩ := htools round (le_refl round) (by omega)
    have hemp : ch.message.tool_calls.isEmpty = false := isEmpty_false_of_ne_nil hnt
    rcases hrc : runCalls env ch.message.tool_calls res
        (msgs ++ [.assistant ch.message]) recs with ⟨exc, m2, r2⟩
    cases exc with
    | error e =>
      rw [agentLoop_step_err f res msgs recs hch hemp hrc] at h
      cases h
    | ok res' =>
      have hstep := agentLoop_step_tools f res msgs recs hch hemp hrc
      rw [hstep] at h ⊢
      have htools' : ∀ r, round + 1 ≤ r → r < round + 1 + f →
          ∃ ch tlc, (env.chat r).choices = ch :: tlc ∧ ch.message.tool_calls ≠ [] :=
        fun r h1 h2 => htools r (by omega) (by omega)
      obtain ⟨hr, hf⟩ := ih (round + 1) res' m2 r2 res2 htools' h
      refine ⟨by omega, fun hno hfs => ?_⟩
      refine hf hno (runCalls_no_fs env ch.message.tool_calls res
        (msgs ++ [.assistant ch.message]) recs hrc ?_ hfs)
      intro tc htc
      exact hno round ch tlc tc hch htc

/-! ### Call-record shape -/

/-- Shape of a recorded invocation whose stub was actually applied:
the arguments parsed to a JSON object whose dict matched the tool's
parameters, and the stub received exactly the model-supplied values. -/
def recOk (rec : CallRecord) : Prop :=
  ∀ sa, rec.stubArgs = some sa →
    ∃ kvs params, loads rec.tc.function.arguments = some (.obj kvs) ∧
      TOOL_MAP_params rec.tc.function.name = some params ∧
      keysMatch (pyDictOf (jPairs kvs)) params = true ∧
      sa = params.map (fun p => (p, argStr (pyDictOf (jPairs kvs)) p))

theorem kwApply_ok {env : Env} {name : String} {params : List String} {argsVal : JValue}
    {out : String} {sa : List (String × String)}
    (h : kwApply env name params argsVal = .ok (out, sa)) :
    ∃ kvs, argsVal = .obj kvs ∧ keysMatch (pyDictOf (jPairs kvs)) params = true ∧
      sa = params.map (fun p => (p, argStr (pyDictOf (jPairs kvs)) p)) := by
  cases argsVal with
  | obj kvs =>
    rw [kwApply] at h
    by_cases hkm : keysMatch (pyDictOf (jPairs kvs)) params = true
    · cases hck : (callKnownTool env name (pyDictOf (jPairs kvs))).1 with
      | error e =>
        rw [if_pos hkm, hck] at h
        cases h
      | ok s =>
        rw [if_pos hkm, hck] at h
        injection h with h1
        exact ⟨kvs, rfl, hkm, (congrArg Prod.snd h1).symm⟩
    · rw [if_neg hkm] at h
      cases h
  | null =>
    rw [show kwApply env name params JValue.null = Except.error PyError.typeError from rfl] at h
    cases h
  | bool b =>
    rw [show kwApply env name params (JValue.bool b) = Except.error PyError.typeError from
      rfl] at h
    cases h
  | num i =>
    rw [show kwApply env name params (JValue.num i) = Except.error PyError.typeError from
      rfl] at h
    cases h
  | str s2 =>
    rw [show kwApply env name params (JValue.str s2) = Except.error PyError.typeError from
      rfl] at h
    cases h
  | arr a =>
    rw [show kwApply env name params (JValue.arr a) = Except.error PyError.typeError from
      rfl] at h
    cases h

theorem runCalls_recOk (env : Env) : ∀ (calls : List ToolCall) res msgs recs,
    (∀ rec ∈ recs, recOk rec) →
    ∀ rec ∈ (runCalls env calls res msgs recs).2.2, recOk rec := by
  intro calls
  induction calls with
  | nil =>
    intro res msgs recs hr
    rw [runCalls_nil]
    exact hr
  | cons tc rest ih =>
    intro res msgs recs hr
    cases hld : loads tc.function.arguments with
    | none =>
      rw [runCalls_badjson rest res msgs recs hld]
      exact hr
    | some o =>
      cases htm : TOOL_MAP_params tc.function.name with
      | none =>
        rw [runCalls_unknown rest res msgs recs hld htm]
        refine ih _ _ _ ?_
        intro rec hrec
        rcases List.mem_append.mp hrec with h2 | h2
        · exact hr rec h2
        · simp at h2
          subst h2
          intro sa hsa
          cases hsa
      | some params =>
        cases hkw : kwApply env tc.function.name params o with
        | error e =>
          rw [runCalls_kwerr rest res msgs recs hld htm hkw]
          exact hr
        | ok p =>
          obtain ⟨out, sa⟩ := p
          rw [runCalls_kwok rest res msgs recs hld htm hkw]
          refine ih _ _ _ ?_
          intro rec hrec
          rcases List.mem_append.mp hrec with h2 | h2
          · exact hr rec h2
          · simp at h2
            subst h2
            intro sa2 hsa2
            injection hsa2 with hsa2
            subst hsa2
            obtain ⟨kvs, hobj, hkm, hsa⟩ := kwApply_ok hkw
            subst hobj
            exact ⟨kvs, params, hld, htm, hkm, hsa⟩

theorem agentLoop_recOk (env : Env) : ∀ fuel round res msgs recs,
    (∀ rec ∈ recs, recOk rec) →
    ∀ rec ∈ (agentLoop env fuel round res msgs recs).calls, recOk rec := by
  intro fuel
  induction fuel with
  | zero =>
    intro round res msgs recs hr
    rw [agentLoop_zero]
    exact hr
  | succ f ih =>
    intro round res msgs recs hr
    cases hch : (env.chat round).choices with
    | nil =>
      rw [agentLoop_nochoice f res msgs recs hch]
      exact hr
    | cons ch tlc =>
      cases hemp : ch.message.tool_calls.isEmpty with
      | true =>
        rw [agentLoop_final f res msgs recs hch hemp]
        exact hr
      | false =>
        have hrec := runCalls_recOk env ch.message.tool_calls res
          (msgs ++ [.assistant ch.message]) recs hr
        rcases hrc : runCalls env ch.message.tool_calls res
            (msgs ++ [.assistant ch.message]) recs with ⟨exc, m2, r2⟩
        rw [hrc] at hrec
        cases exc with
        | error e =>
          rw [agentLoop_step_err f res msgs recs hch hemp hrc]
          exact hrec
        | ok res' =>
          rw [agentLoop_step_tools f res msgs recs hch hemp hrc]
          exact ih (round + 1) res' m2 r2 hrec

/-! ### Claim C7 -/

/-- Claim C7: the pretty-printer `_safe_json` is idempotent on every
input that parses as JSON (applying it twice yields the text of
applying it once), and it is the identity on every input that does not
parse as JSON. -/
theorem c7_safe_json_idempotent (t : String) :
    _safe_json (_safe_json t) = _safe_json t ∧ (loads t = none → _safe_json t = t) :=
  ⟨safe_json_idem t, fun h => safe_json_of_not_json h⟩

/-- Witness for C7 at concrete inputs: a JSON text and a non-JSON text. -/
theorem c7_safe_json_idempotent_witness :
    _safe_json (_safe_json "\x7b\"a\": 1\x7d") = _safe_json "\x7b\"a\": 1\x7d" ∧
      _safe_json "not json" = "not json" :=
  ⟨(c7_safe_json_idempotent "\x7b\"a\": 1\x7d").1,
   (c7_safe_json_idempotent "not json").2 rfl⟩

/-! ### Claim C5 -/

/-- Scripted endpoint whose first response has no tool calls and
whitespace-padded text. -/
def envC5 : Env :=
  ⟨fun _ => ⟨[⟨⟨some " No action needed ", []⟩⟩]⟩, fun _ _ => ⟨[]⟩⟩

/-- Counterexample to claim C5 as stated: when the terminating response
text carries surrounding whitespace, `final_summary` holds the stripped
text, not the response text itself (`msg.content.strip()`). -/
theorem c5_counterexample :
    (process_ticket envC5 "t").outcome = .ok [("final_summary", "No action needed")] ∧
    (envC5.chat 0).choices = [⟨⟨some " No action needed ", []⟩⟩] ∧
    ("No action needed" : String) ≠ " No action needed " :=
  ⟨rfl, rfl, by decide⟩

/-- Claim C5 (amended): if the very first response carries no
tool-invocation requests, `process_ticket` returns after exactly one
round a mapping whose only key is `final_summary`, mapped to the
response text stripped of leading and trailing whitespace (the empty
string when the content is null or empty). -/
theorem c5_first_response (env : Env) (t : String) (ch : ChatChoice)
    (tlc : List ChatChoice) (hch : (env.chat 0).choices = ch :: tlc)
    (hnt : ch.message.tool_calls = []) :
    (process_ticket env t).outcome =
      .ok [("final_summary", stripContent ch.message.content)] ∧
    (process_ticket env t).rounds = 1 := by
  have hemp : ch.message.tool_calls.isEmpty = true := by rw [hnt]; rfl
  unfold process_ticket max_iterations
  rw [show (10 : Nat) = 9 + 1 from rfl, agentLoop_final 9 _ _ _ hch hemp]
  exact ⟨rfl, rfl⟩

/-- Witness for C5 (amended) at a concrete scripted endpoint. -/
theorem c5_first_response_witness :
    (process_ticket envC5 "t").outcome = .ok [("final_summary", "No action needed")] ∧
    (process_ticket envC5 "t").rounds = 1 :=
  c5_first_response envC5 "t" ⟨⟨some " No action needed ", []⟩⟩ [] rfl rfl

/-! ### Claim C10 -/

/-- Claim C10: if the terminating first response has no tool calls and
null content, `process_ticket` still returns normally with
`final_summary` mapped to the empty string rather than raising. -/
theorem c10_null_content (env : Env) (t : String) (ch : ChatChoice)
    (tlc : List ChatChoice) (hch : (env.chat 0).choices = ch :: tlc)
    (hnt : ch.message.tool_calls = []) (hc : ch.message.content = none) :
    (process_ticket env t).outcome = .ok [("final_summary", "")] := by
  have hemp : ch.message.tool_calls.isEmpty = true := by rw [hnt]; rfl
  unfold process_ticket max_iterations
  rw [show (10 : Nat) = 9 + 1 from rfl, agentLoop_final 9 _ _ _ hch hemp]
  dsimp only
  rw [hc]
  rfl

/-- Scripted endpoint answering with neither tool calls nor content. -/
def envC10 : Env := ⟨fun _ => ⟨[⟨⟨none, []⟩⟩]⟩, fun _ _ => ⟨[]⟩⟩

/-- Witness for C10 at a concrete scripted endpoint. -/
theorem c10_null_content_witness :
    (process_ticket envC10 "t").outcome = .ok [("final_summary", "")] :=
  c10_null_content envC10 "t" ⟨⟨none, []⟩⟩ [] rfl rfl rfl

/-! ### Claim C6 -/

/-- Claim C6: in every run, every tool-result message appended to the
conversation carries a call identifier advertised by the most recent
assistant message preceding it (the one whose calls are being
answered). -/
theorem c6_tool_pairing (env : Env) (t : String) :
    toolPaired (process_ticket env t).msgs none = true := by
  unfold process_ticket max_iterations
  exact agentLoop_toolPaired env 10 0 [] _ [] rfl

/-! ### Claim C1 -/

/-- Scripted endpoint whose first response requests an unregistered
tool (with well-formed JSON arguments) and whose second response ends
the run. -/
def envC1 : Env :=
  ⟨fun r => if r = 0 then ⟨[⟨⟨some "", [⟨"call_1", ⟨"bogus_tool", "\x7b\x7d"⟩⟩]⟩⟩]⟩
    else ⟨[⟨⟨some "done", []⟩⟩]⟩,
   fun _ _ => ⟨[⟨some "ok"⟩]⟩⟩

/-- Counterexample to claim C1 as stated: requesting an unregistered
tool name stores the error payload under that very name
(`results[fn_name] = ...`), so the returned mapping contains a key
outside the four operation names and `final_summary`. -/
theorem c1_counterexample :
    (process_ticket envC1 "t").outcome =
      .ok [("bogus_tool", unknownToolPayload "bogus_tool"), ("final_summary", "done")] ∧
    ¬ ("bogus_tool" = "final_summary" ∨ "bogus_tool" ∈ toolNames) :=
  ⟨rfl, by decide⟩

/-- Claim C1 (amended): every key of the returned mapping is either
`final_summary` or the name of a tool invocation the model requested
during the run (a registered operation name, or an unknown name whose
entry is the substituted error payload). -/
theorem c1_keys (env : Env) (t : String) (res : List (String × String))
    (h : (process_ticket env t).outcome = .ok res) :
    ∀ k ∈ resKeys res, k = "final_summary" ∨ requestedIn (process_ticket env t).msgs k := by
  intro k hk
  unfold process_ticket max_iterations at h ⊢
  rcases agentLoop_keys env 10 0 [] _ [] res h k (by simpa [resKeys_eq] using hk)
    with h2 | h2 | h2
  · simp [resKeys'] at h2
  · exact .inl h2
  · exact .inr h2

/-- Witness for C1 (amended) on the unknown-tool run. -/
theorem c1_keys_witness :
    ("bogus_tool" : String) = "final_summary" ∨
      requestedIn (process_ticket envC1 "t").msgs "bogus_tool" :=
  c1_keys envC1 "t"
    [("bogus_tool", unknownToolPayload "bogus_tool"), ("final_summary", "done")] rfl
    "bogus_tool" (by decide)

/-! ### Claim C3 -/

/-- Scripted endpoint requesting an unregistered tool with an argument
payload that is not valid JSON. -/
def envC3 : Env :=
  ⟨fun _ => ⟨[⟨⟨some "", [⟨"c1", ⟨"bogus_tool", "not json"⟩⟩]⟩⟩]⟩, fun _ _ => ⟨[]⟩⟩

/-- Counterexample to claim C3 as stated: `json.loads(arguments)` runs
before the registry lookup, so an unknown tool whose argument payload
is not valid JSON aborts the whole ticket — "does not raise" is false
without a proviso on the arguments. -/
theorem c3_counterexample :
    (process_ticket envC3 "t").outcome = .error .jsonDecodeError ∧
    "bogus_tool" ∉ toolNames :=
  ⟨rfl, by decide⟩

/-- Claim C3 (amended): provided the call's argument payload parses as
JSON, a request for an unregistered tool name does not raise and does
not end the loop: the driver records the error-shaped payload
`json.dumps` of the `Unknown tool` dictionary under that name, echoes
it as a tool message, and continues with the remaining calls. -/
theorem c3_unknown_tool (env : Env) (tc : ToolCall) (rest : List ToolCall)
    (res : List (String × String)) (msgs : List Message) (recs : List CallRecord)
    (o : JValue) (hld : loads tc.function.arguments = some o)
    (htm : TOOL_MAP_params tc.function.name = none) :
    runCalls env (tc :: rest) res msgs recs =
      runCalls env rest (pySet res tc.function.name (unknownToolPayload tc.function.name))
        (msgs ++ [.tool tc.id (unknownToolPayload tc.function.name)])
        (recs ++ [⟨tc, res, none⟩]) ∧
    unknownToolPayload tc.function.name =
      dumpsCompact (.obj (.cons "error" (.str ("Unknown tool: " ++ tc.function.name)) .nil)) :=
  ⟨runCalls_unknown rest res msgs recs hld htm, rfl⟩

/-- Witness for C3 (amended) at a concrete unknown-tool invocation. -/
theorem c3_unknown_tool_witness :
    runCalls envC3 [⟨"c1", ⟨"bogus_tool", "\x7b\x7d"⟩⟩] [] [] [] =
      runCalls envC3 [] (pySet [] "bogus_tool" (unknownToolPayload "bogus_tool"))
        ([] ++ [.tool "c1" (unknownToolPayload "bogus_tool")])
        ([] ++ [⟨⟨"c1", ⟨"bogus_tool", "\x7b\x7d"⟩⟩, [], none⟩]) ∧
    unknownToolPayload "bogus_tool" =
      dumpsCompact (.obj (.cons "error" (.str ("Unknown tool: " ++ "bogus_tool")) .nil)) :=
  c3_unknown_tool envC3 ⟨"c1", ⟨"bogus_tool", "\x7b\x7d"⟩⟩ [] [] [] [] (.obj .nil) rfl rfl

/-! ### Claim C4 -/

/-- Claim C4: the driver performs at most 10 rounds; if every round up
to the cap requests tools (and none of the requested calls is itself
named `final_summary`), a normally-returning run performs exactly 10
rounds and returns the accumulated results with no `final_summary`
entry — the cap path sets none. -/
theorem c4_round_cap (env : Env) (t : String) :
    (process_ticket env t).rounds ≤ 10 ∧
    ((∀ r, r < 10 →
        ∃ ch tlc, (env.chat r).choices = ch :: tlc ∧ ch.message.tool_calls ≠ []) →
     (∀ r ch tlc tc, (env.chat r).choices = ch :: tlc → tc ∈ ch.message.tool_calls →
        tc.function.name ≠ "final_summary") →
     ∀ res, (process_ticket env t).outcome = .ok res →
       (process_ticket env t).rounds = 10 ∧ jLookup res "final_summary" = none) := by
  constructor
  · unfold process_ticket max_iterations
    exact agentLoop_rounds env 10 0 [] _ []
  · intro htools hno res hres
    unfold process_ticket max_iterations at hres ⊢
    have h := agentLoop_all_tools env 10 0 [] _ [] res
      (fun r h1 h2 => htools r (by omega)) hres
    exact ⟨h.1, h.2 hno rfl⟩

/-- Scripted endpoint requesting `analyze_ticket` in every round, so
the run only stops at the cap. -/
def envC4 : Env :=
  ⟨fun _ => ⟨[⟨⟨some "", [⟨"i1", ⟨"analyze_ticket", "\x7b\"ticket_text\": \"x\"\x7d"⟩⟩]⟩⟩]⟩,
   fun _ _ => ⟨[⟨some "ok"⟩]⟩⟩

/-- Witness for C4 on a capped run: exactly 10 rounds, no summary. -/
theorem c4_round_cap_witness :
    (process_ticket envC4 "t").rounds = 10 ∧
      jLookup [("analyze_ticket", "ok")] "final_summary" = none := by
  have h := (c4_round_cap envC4 "t").2
    (fun r hr => ⟨⟨⟨some "", [⟨"i1", ⟨"analyze_ticket", "\x7b\"ticket_text\": \"x\"\x7d"⟩⟩]⟩⟩,
      [], rfl, by decide⟩)
    (by
      intro r ch tlc tc hch htc
      injection hch with h1 h2
      subst h1
      simp at htc
      subst htc
      decide)
    [("analyze_ticket", "ok")] rfl
  exact h

/-! ### Claim C2 -/

/-- Scripted endpoint that records an analysis "A", then calls
`classify_ticket` with a different analysis text "B". -/
def envC2 : Env :=
  ⟨fun r => if r = 0 then
      ⟨[⟨⟨some "", [⟨"c1", ⟨"analyze_ticket", "\x7b\"ticket_text\": \"t\"\x7d"⟩⟩]⟩⟩]⟩
    else if r = 1 then
      ⟨[⟨⟨some "", [⟨"c2", ⟨"classify_ticket",
        "\x7b\"ticket_text\": \"t\", \"analysis\": \"B\"\x7d"⟩⟩]⟩⟩]⟩
    else ⟨[⟨⟨some "done", []⟩⟩]⟩,
   fun _ _ => ⟨[⟨some "A"⟩]⟩⟩

/-- Counterexample to claim C2 as stated: a run in which the
accumulator's `analyze_ticket` entry at the moment of the
`classify_ticket` invocation is "A" while the analysis argument handed
to the stub is the model-supplied "B". -/
theorem c2_counterexample :
    (process_ticket envC2 "t").calls.get? 1 =
      some ⟨⟨"c2", ⟨"classify_ticket",
          "\x7b\"ticket_text\": \"t\", \"analysis\": \"B\"\x7d"⟩⟩,
        [("analyze_ticket", "A")], some [("ticket_text", "t"), ("analysis", "B")]⟩ ∧
    jLookup [("analyze_ticket", "A")] "analyze_ticket" = some "A" ∧
    jLookup [("ticket_text", "t"), ("analysis", "B")] "analysis" = some "B" ∧
    ("B" : String) ≠ "A" :=
  ⟨rfl, rfl, rfl, by decide⟩

/-- Claim C2 (amended): the driver passes `classify_ticket` exactly the
`analysis` value contained in that tool call's own JSON argument
payload; it neither substitutes nor checks the accumulator's
`analyze_ticket` entry, so the feed-forward equality holds only in runs
where the model itself echoes the recorded value. -/
theorem c2_analysis_passthrough (env : Env) (t : String) (rec : CallRecord)
    (hrec : rec ∈ (process_ticket env t).calls)
    (hname : rec.tc.function.name = "classify_ticket")
    (sa : List (String × String)) (hsa : rec.stubArgs = some sa) :
    ∃ kvs, loads rec.tc.function.arguments = some (.obj kvs) ∧
      jLookup sa "analysis" = some (argStr (pyDictOf (jPairs kvs)) "analysis") := by
  unfold process_ticket max_iterations at hrec
  have hok := agentLoop_recOk env 10 0 [] _ [] (fun rec h => by cases h) rec hrec
  obtain ⟨kvs, params, hld, htm, hkm, hsal⟩ := hok sa hsa
  rw [hname] at htm
  rw [show TOOL_MAP_params "classify_ticket" = some ["ticket_text", "analysis"] from
    rfl] at htm
  injection htm with hp
  subst hsal
  rw [← hp]
  exact ⟨kvs, hld, rfl⟩

/-- Witness for C2 (amended) on the scripted run above. -/
theorem c2_analysis_passthrough_witness :
    ∃ kvs, loads "\x7b\"ticket_text\": \"t\", \"analysis\": \"B\"\x7d" = some (.obj kvs) ∧
      jLookup [("ticket_text", "t"), ("analysis", "B")] "analysis" =
        some (argStr (pyDictOf (jPairs kvs)) "analysis") :=
  c2_analysis_passthrough envC2 "t"
    ⟨⟨"c2", ⟨"classify_ticket", "\x7b\"ticket_text\": \"t\", \"analysis\": \"B\"\x7d"⟩⟩,
      [("analyze_ticket", "A")], some [("ticket_text", "t"), ("analysis", "B")]⟩
    (by decide) rfl [("ticket_text", "t"), ("analysis", "B")] rfl

/-! ### Claim C8 -/

/-- Endpoint whose one-shot completions return whitespace-padded
text. -/
def envC8 : Env := ⟨fun _ => ⟨[]⟩, fun _ _ => ⟨[⟨some " hello "⟩]⟩⟩

/-- Counterexample to claim C8 as stated: `_llm` returns
`content.strip()`, so the stub's return is not the raw response text
verbatim when it carries surrounding whitespace. -/
theorem c8_counterexample :
    (analyze_ticket envC8 "t").1 = .ok "hello" ∧
    (envC8.llm ANALYZE_SYSTEM "t").choices = [⟨some " hello "⟩] ∧
    ("hello" : String) ≠ " hello " :=
  ⟨rfl, rfl, by decide⟩

/-- Claim C8 (amended): each of the four stub operations sends exactly
one request to the completion endpoint (its fixed system prompt plus
the interpolated user payload) and returns the endpoint's response
text stripped of leading and trailing whitespace — no parsing, no
schema validation, no retry. -/
theorem c8_stubs (env : Env) (t a c e : String) :
    ((analyze_ticket env t).2 = [⟨ANALYZE_SYSTEM, t⟩] ∧
      ∀ s rest, (env.llm ANALYZE_SYSTEM t).choices = ⟨some s⟩ :: rest →
        (analyze_ticket env t).1 = .ok (pyStrip s)) ∧
    ((classify_ticket env t a).2 =
        [⟨CLASSIFY_SYSTEM, "Ticket:\n" ++ t ++ "\n\nAnalysis:\n" ++ a⟩] ∧
      ∀ s rest,
        (env.llm CLASSIFY_SYSTEM ("Ticket:\n" ++ t ++ "\n\nAnalysis:\n" ++ a)).choices =
          ⟨some s⟩ :: rest →
        (classify_ticket env t a).1 = .ok (pyStrip s)) ∧
    ((extract_entities env t).2 = [⟨EXTRACT_SYSTEM, t⟩] ∧
      ∀ s rest, (env.llm EXTRACT_SYSTEM t).choices = ⟨some s⟩ :: rest →
        (extract_entities env t).1 = .ok (pyStrip s)) ∧
    ((generate_response env t a c e).2 =
        [⟨GENERATE_SYSTEM, "Ticket:\n" ++ t ++ "\n\nAnalysis:\n" ++ a ++
          "\n\nClassification:\n" ++ c ++ "\n\nEntities:\n" ++ e⟩] ∧
      ∀ s rest,
        (env.llm GENERATE_SYSTEM ("Ticket:\n" ++ t ++ "\n\nAnalysis:\n" ++ a ++
          "\n\nClassification:\n" ++ c ++ "\n\nEntities:\n" ++ e)).choices =
          ⟨some s⟩ :: rest →
        (generate_response env t a c e).1 = .ok (pyStrip s)) := by
  refine ⟨⟨rfl, ?_⟩, ⟨rfl, ?_⟩, ⟨rfl, ?_⟩, ⟨rfl, ?_⟩⟩ <;>
    · intro s rest h
      simp [analyze_ticket, classify_ticket, extract_entities, generate_response, _llm, h]

/-- Witness for C8 (amended): one stub applied at a concrete endpoint
with padded output. -/
theorem c8_stubs_witness : (analyze_ticket envC8 "t").1 = .ok (pyStrip " hello ") :=
  (c8_stubs envC8 "t" "a" "c" "e").1.2 " hello " [] rfl

/-! ### Claim C9 -/

theorem kwApply_typeErr {env : Env} {name : String} {params : List String} {o : JValue}
    (h : ∀ kvs, o = .obj kvs → keysMatch (pyDictOf (jPairs kvs)) params = false) :
    kwApply env name params o = .error .typeError := by
  cases o with
  | obj kvs =>
    rw [kwApply, if_neg (by simp [h kvs rfl])]
  | null => rfl
  | bool b => rfl
  | num i => rfl
  | str s => rfl
  | arr a => rfl

/-- Claim C9: graceful degradation covers only unknown tool names — if
the first requested call names a registered tool but its argument
payload is not valid JSON, or is not a JSON object binding exactly the
tool's parameters, `process_ticket` raises (JSONDecodeError resp.
TypeError) and the whole ticket aborts with no partial result. -/
theorem c9_bad_args_abort (env : Env) (t : String) (ch : ChatChoice)
    (tlc : List ChatChoice) (tc : ToolCall) (rest : List ToolCall) (params : List String)
    (hch : (env.chat 0).choices = ch :: tlc)
    (htc : ch.message.tool_calls = tc :: rest)
    (htm : TOOL_MAP_params tc.function.name = some params) :
    (loads tc.function.arguments = none →
      (process_ticket env t).outcome = .error .jsonDecodeError) ∧
    (∀ o, loads tc.function.arguments = some o →
      (∀ kvs, o = .obj kvs → keysMatch (pyDictOf (jPairs kvs)) params = false) →
      (process_ticket env t).outcome = .error .typeError) := by
  have hemp : ch.message.tool_calls.isEmpty = false := by rw [htc]; rfl
  constructor
  · intro hld
    have hrc : runCalls env ch.message.tool_calls []
        ([Message.system AGENT_SYSTEM,
          Message.user ("Process this support ticket:\n\n" ++ t)] ++
          [.assistant ch.message]) [] =
        (.error .jsonDecodeError,
          [Message.system AGENT_SYSTEM,
            Message.user ("Process this support ticket:\n\n" ++ t)] ++
            [.assistant ch.message], []) := by
      rw [htc]
      exact runCalls_badjson rest _ _ _ hld
    unfold process_ticket max_iterations
    rw [show (10 : Nat) = 9 + 1 from rfl, agentLoop_step_err 9 _ _ _ hch hemp hrc]
  · intro o hld hbad
    have hrc : runCalls env ch.message.tool_calls []
        ([Message.system AGENT_SYSTEM,
          Message.user ("Process this support ticket:\n\n" ++ t)] ++
          [.assistant ch.message]) [] =
        (.error .typeError,
          [Message.system AGENT_SYSTEM,
            Message.user ("Process this support ticket:\n\n" ++ t)] ++
            [.assistant ch.message], []) := by
      rw [htc]
      exact runCalls_kwerr rest _ _ _ hld htm (kwApply_typeErr hbad)
    unfold process_ticket max_iterations
    rw [show (10 : Nat) = 9 + 1 from rfl, agentLoop_step_err 9 _ _ _ hch hemp hrc]

/-- Endpoint requesting a registered tool with non-JSON arguments. -/
def envC9a : Env :=
  ⟨fun _ => ⟨[⟨⟨some "", [⟨"c1", ⟨"analyze_ticket", "not json"⟩⟩]⟩⟩]⟩, fun _ _ => ⟨[]⟩⟩

/-- Endpoint requesting a registered tool whose JSON arguments are not
an object binding the tool's parameters. -/
def envC9b : Env :=
  ⟨fun _ => ⟨[⟨⟨some "", [⟨"c1", ⟨"analyze_ticket", "[1]"⟩⟩]⟩⟩]⟩, fun _ _ => ⟨[]⟩⟩

/-- Witness for C9 at concrete bad-argument runs. -/
theorem c9_bad_args_abort_witness :
    (process_ticket envC9a "t").outcome = .error .jsonDecodeError ∧
    (process_ticket envC9b "t").outcome = .error .typeError :=
  ⟨(c9_bad_args_abort envC9a "t" ⟨⟨some "", [⟨"c1", ⟨"analyze_ticket", "not json"⟩⟩]⟩⟩ []
      ⟨"c1", ⟨"analyze_ticket", "not json"⟩⟩ [] ["ticket_text"] rfl rfl rfl).1 rfl,
   (c9_bad_args_abort envC9b "t" ⟨⟨some "", [⟨"c1", ⟨"analyze_ticket", "[1]"⟩⟩]⟩⟩ []
      ⟨"c1", ⟨"analyze_ticket", "[1]"⟩⟩ [] ["ticket_text"] rfl rfl rfl).2
      (.arr (.cons (.num 1) .nil)) rfl (fun kvs h => by cases h)⟩

end AgentSpec